import Mathlib

/-!
Verification of the SF neighborhood news classifier (`src/classify.py`).

Python strings are modelled as `List Char`; Python floats as `ℚ` for the
finite values (the clamped-confidence arithmetic on them is exact order
arithmetic, so rationals model it faithfully), refined by `PyFloat` where
the IEEE value NaN matters: `json.loads` accepts the literals `NaN` and
`Infinity` by default, `ℚ` cannot carry them, and NaN passes through
`min(max(·, 0.0), 1.0)` unchanged, so the confidence-interval analysis is
carried out over `PyFloat`.  JSON-decoded Python values are the inductive
`Json` below; Python exceptions the inductive `PyExc`, with `Except` used
for code that can raise.  The remote model call and `json.loads` are kept
abstract: the claims quantify over every behaviour of both, so
`classify_article` takes a transport outcome and a parser function as
parameters.
-/

namespace SFNC

/-- A JSON-decoded Python value (result of `json.loads`).  `num` models both
Python ints and floats as one exact number; this program only ever compares
and clamps them, never exploits int/float representation differences.  Two
deliberate gaps, both disclosed where they matter: JSON arrays are omitted
(at every use site of this program an array behaves like the other non-dict
values already modelled — indexing with a string key raises `TypeError`);
and `ℚ` cannot carry the non-finite floats NaN/±Infinity that `json.loads`
produces for the default-enabled literals `NaN`/`Infinity`.  The infinities
are clamped into `[0, 1]` like any out-of-range number, but NaN survives the
clamp, which falsifies the unconditional confidence-interval invariant; that
escape is analysed over the `PyFloat` refinement below (claim C2). -/
inductive Json where
  | null : Json
  | bool (b : Bool) : Json
  | num (q : ℚ) : Json
  | str (s : String) : Json
  | obj (kvs : List (String × Json)) : Json

mutual
/-- Decidable equality on `Json`, written by hand because the default
deriving handler does not treat the nested `List (String × Json)` field. -/
def Json.decEq : (a b : Json) → Decidable (a = b)
  | .null, .null => isTrue rfl
  | .bool a, .bool b =>
    if h : a = b then isTrue (by rw [h]) else isFalse (fun e => h (by injection e))
  | .num a, .num b =>
    if h : a = b then isTrue (by rw [h]) else isFalse (fun e => h (by injection e))
  | .str a, .str b =>
    if h : a = b then isTrue (by rw [h]) else isFalse (fun e => h (by injection e))
  | .obj xs, .obj ys =>
    match Json.decEqKVs xs ys with
    | isTrue h => isTrue (by rw [h])
    | isFalse h => isFalse (fun e => h (by injection e))
  | .null, .bool _ => isFalse (fun e => Json.noConfusion e)
  | .null, .num _ => isFalse (fun e => Json.noConfusion e)
  | .null, .str _ => isFalse (fun e => Json.noConfusion e)
  | .null, .obj _ => isFalse (fun e => Json.noConfusion e)
  | .bool _, .null => isFalse (fun e => Json.noConfusion e)
  | .bool _, .num _ => isFalse (fun e => Json.noConfusion e)
  | .bool _, .str _ => isFalse (fun e => Json.noConfusion e)
  | .bool _, .obj _ => isFalse (fun e => Json.noConfusion e)
  | .num _, .null => isFalse (fun e => Json.noConfusion e)
  | .num _, .bool _ => isFalse (fun e => Json.noConfusion e)
  | .num _, .str _ => isFalse (fun e => Json.noConfusion e)
  | .num _, .obj _ => isFalse (fun e => Json.noConfusion e)
  | .str _, .null => isFalse (fun e => Json.noConfusion e)
  | .str _, .bool _ => isFalse (fun e => Json.noConfusion e)
  | .str _, .num _ => isFalse (fun e => Json.noConfusion e)
  | .str _, .obj _ => isFalse (fun e => Json.noConfusion e)
  | .obj _, .null => isFalse (fun e => Json.noConfusion e)
  | .obj _, .bool _ => isFalse (fun e => Json.noConfusion e)
  | .obj _, .num _ => isFalse (fun e => Json.noConfusion e)
  | .obj _, .str _ => isFalse (fun e => Json.noConfusion e)
/-- Decidable equality on association lists of `Json` values. -/
def Json.decEqKVs : (a b : List (String × Json)) → Decidable (a = b)
  | [], [] => isTrue rfl
  | [], _ :: _ => isFalse (fun e => List.noConfusion e)
  | _ :: _, [] => isFalse (fun e => List.noConfusion e)
  | (k₁, v₁) :: r₁, (k₂, v₂) :: r₂ =>
    if hk : k₁ = k₂ then
      match Json.decEq v₁ v₂ with
      | isTrue hv =>
        match Json.decEqKVs r₁ r₂ with
        | isTrue hr => isTrue (by rw [hk, hv, hr])
        | isFalse hr => isFalse (fun e => by injection e with h1 h2; exact hr h2)
      | isFalse hv =>
        isFalse (fun e => by
          injection e with h1 h2
          injection h1 with hk' hv'
          exact hv hv')
    else
      isFalse (fun e => by
        injection e with h1 h2
        injection h1 with hk' hv'
        exact hk hk')
end

instance : DecidableEq Json := Json.decEq

/-- Python exceptions relevant to `classify_article`.  `json.JSONDecodeError`
is a subclass of `ValueError`; both are caught by the inner handler of
`classify_article`, while `TypeError`/`KeyError` are not. -/
inductive PyExc where
  | jsonDecode (msg : String) : PyExc
  | valueError (msg : String) : PyExc
  | typeError (msg : String) : PyExc
  | keyError (msg : String) : PyExc
  deriving DecidableEq

/-- Python `str(e)` on an exception: its message. -/
def excMsg : PyExc → String
  | .jsonDecode m => m
  | .valueError m => m
  | .typeError m => m
  | .keyError m => m

/-- Whether the exception is caught by `except (json.JSONDecodeError, ValueError)`
(line 158 of `classify.py`). -/
def innerCaught : PyExc → Bool
  | .jsonDecode _ => true
  | .valueError _ => true
  | .typeError _ => false
  | .keyError _ => false

/-! ## Python string primitives over `List Char` -/
/-- Characters stripped by Python `str.strip()`. -/
def pySpace (c : Char) : Bool :=
  c == ' ' || c == '\t' || c == '\n' || c == '\r' || c == '\x0b' || c == '\x0c'

/-- Python `str.strip()`. -/
def pyStrip (l : List Char) : List Char :=
  ((l.dropWhile pySpace).reverse.dropWhile pySpace).reverse

/-- Whether `sep` occurs at the head of `l` (our own prefix test, kept local
so all lemmas about it are in this file). -/
def leadsWith : List Char → List Char → Bool
  | [], _ => true
  | _ :: _, [] => false
  | a :: as, b :: bs => a == b && leadsWith as bs

/-- Split at the leftmost occurrence of `sep`: `some (pre, post)` with
`l = pre ++ sep ++ post`, `none` when `sep` does not occur.  (`sep` is
assumed nonempty, as in all uses.) -/
def splitFirst (sep : List Char) : List Char → Option (List Char × List Char)
  | [] => none
  | c :: rest =>
    if leadsWith sep (c :: rest) then some ([], (c :: rest).drop sep.length)
    else
      match splitFirst sep rest with
      | some (pre, post) => some (c :: pre, post)
      | none => none

/-- Python `sep in s` (substring containment). -/
def containsSub (sep s : List Char) : Bool := (splitFirst sep s).isSome

/-- Python `s.split(sep)[0]`: the part before the first occurrence of `sep`,
or all of `s` when `sep` does not occur. -/
def split0 (sep s : List Char) : List Char :=
  match splitFirst sep s with
  | some (pre, _) => pre
  | none => s

/-- Python `s.split(sep)[1]`: the segment between the first and second
occurrences of `sep` (to the end when `sep` occurs once; `s` itself stands in
for the out-of-range case, which the source guards against). -/
def split1 (sep s : List Char) : List Char :=
  match splitFirst sep s with
  | some (_, post) =>
    match splitFirst sep post with
    | some (pre2, _) => pre2
    | none => post
  | none => s

/-- Index of the leftmost position where `sep` occurs in `l`. -/
def firstInfixIdx (sep : List Char) : List Char → Option ℕ
  | [] => none
  | c :: rest =>
    if leadsWith sep (c :: rest) then some 0
    else (firstInfixIdx sep rest).map (· + 1)

/-- Index of the first occurrence of character `c`. -/
def firstIdx (c : Char) : List Char → Option ℕ
  | [] => none
  | x :: xs => if x == c then some 0 else (firstIdx c xs).map (· + 1)

/-- Index of the last occurrence of character `c`. -/
def lastIdx (c : Char) (l : List Char) : Option ℕ :=
  (firstIdx c l.reverse).map (fun i => l.length - 1 - i)

/-- Python `s.find(c)`: index of first occurrence or `-1`. -/
def pyFind (c : Char) (l : List Char) : Int :=
  match firstIdx c l with
  | some i => (i : Int)
  | none => -1

/-- Python `s.rfind(c)`: index of last occurrence or `-1`. -/
def pyRFind (c : Char) (l : List Char) : Int :=
  match lastIdx c l with
  | some i => (i : Int)
  | none => -1

/-- Python `s[a:b]` for `0 ≤ a ≤ b`. -/
def pySlice (l : List Char) (a b : ℕ) : List Char := (l.drop a).take (b - a)

/-- The opening brace character (written by code point). -/
def lbrace : Char := Char.ofNat 123

/-- The closing brace character (written by code point). -/
def rbrace : Char := Char.ofNat 125

/-- The plain code-fence marker. -/
def fenceChars : List Char := ("```").toList

/-- The JSON-tagged code-fence marker. -/
def fenceJsonChars : List Char := ("```json").toList

/-! ## The response extractor (lines 120-141 of `classify.py`) -/
/-- Lines 122-126: markdown-fence removal exactly as written in the source,
with Python's `split`-indexing semantics. -/
def fenceCut (t : List Char) : List Char :=
  if containsSub fenceJsonChars t then
    pyStrip (split0 fenceChars (split1 fenceJsonChars t))
  else if containsSub fenceChars t then
    pyStrip (split0 fenceChars (split1 fenceChars t))
  else t

/-- Lines 131-138 of `classify.py`: `start = text.find(lbrace)`,
`end = text.rfind(rbrace) + 1`; slice `text[start:end]` when
`start >= 0 and end > start`, else keep the whole text. -/
def braceCut (t : List Char) : List Char :=
  if 0 ≤ pyFind lbrace t ∧ pyFind lbrace t < pyRFind rbrace t + 1 then
    pySlice t (pyFind lbrace t).toNat (pyRFind rbrace t + 1).toNat
  else t

/-- Lines 120-141 of `classify.py`: strip the raw response, remove a markdown
fence, strip, slice from the first opening brace to the last closing brace
when that span is nonempty, and strip the result. -/
def extract_json_text (raw : List Char) : List Char :=
  pyStrip (braceCut (pyStrip (fenceCut (pyStrip raw))))

/-- Specification-side restatement of the fence step (claim C5), phrased with
occurrence indices instead of Python `split` lists: prefer the first
JSON-tagged fence; take the text after it, truncated at the following
JSON-tagged fence if any and then at the following plain fence if any;
otherwise use the first plain fence the same way; otherwise leave the text
alone. -/
def specFenceRaw (t : List Char) : List Char :=
  match firstInfixIdx fenceJsonChars t with
  | some i =>
    let rest := t.drop (i + fenceJsonChars.length)
    let seg :=
      match firstInfixIdx fenceJsonChars rest with
      | some j => rest.take j
      | none => rest
    (match firstInfixIdx fenceChars seg with
     | some k => seg.take k
     | none => seg)
  | none =>
    match firstInfixIdx fenceChars t with
    | some i =>
      let rest := t.drop (i + fenceChars.length)
      (match firstInfixIdx fenceChars rest with
       | some k => rest.take k
       | none => rest)
    | none => t

/-- Specification-side restatement of the brace step (claim C5): if a first
opening brace exists at index `i` and a last closing brace at index `j` with
`i < j`, the result is exactly the slice from `i` through `j` inclusive;
otherwise the whole text. -/
def specBraceSlice (t : List Char) : List Char :=
  match firstIdx lbrace t, lastIdx rbrace t with
  | some i, some j => if i < j then (t.drop i).take (j + 1 - i) else t
  | _, _ => t

/-- Specification-side restatement of the whole extractor per claim C5:
fence content (json preferred), trimmed, then the exact first-brace /
last-brace slice, with the whole trimmed text in every other case. -/
def specExtract (raw : List Char) : List Char :=
  specBraceSlice (pyStrip (specFenceRaw (pyStrip raw)))

/-! ## Python dict / float semantics used by `classify_article` -/
/-- The key string `neighborhood`. -/
def kNeighborhood : String := "neighborhood"

/-- The key string `confidence`. -/
def kConfidence : String := "confidence"

/-- The key string `rationale`. -/
def kRationale : String := "rationale"

/-- The key string `id`. -/
def kId : String := "id"

/-- Python `key in x`: key membership for dicts, substring test for strings,
`TypeError` for the non-container values. -/
def pyContains (key : String) : Json → Except PyExc Bool
  | .obj kvs => .ok (kvs.any (fun kv => kv.1 == key))
  | .str s => .ok (containsSub key.toList s.toList)
  | .null => .error (.typeError "argument of type NoneType is not iterable")
  | .bool _ => .error (.typeError "argument of type bool is not iterable")
  | .num _ => .error (.typeError "argument of type number is not iterable")

/-- Python `x[key]` for a string key: dict lookup (`KeyError` when absent),
`TypeError` on every other value. -/
def pyGetItem (j : Json) (key : String) : Except PyExc Json :=
  match j with
  | .obj kvs =>
    match kvs.lookup key with
    | some v => .ok v
    | none => .error (.keyError key)
  | .str _ => .error (.typeError "string indices must be integers")
  | .null => .error (.typeError "NoneType is not subscriptable")
  | .bool _ => .error (.typeError "bool is not subscriptable")
  | .num _ => .error (.typeError "number is not subscriptable")

/-- Python dict assignment `d[k] = v`: replace the value at the first
occurrence of `k`, keeping its position, else append `(k, v)`. -/
def assocSet : List (String × Json) → String → Json → List (String × Json)
  | [], k, v => [(k, v)]
  | (k', v') :: rest, k, v =>
    if k' = k then (k, v) :: rest else (k', v') :: assocSet rest k v

/-- `d[k] = v` on a `Json` value known to be a dict. -/
def jsonSetKey : Json → String → Json → Json
  | .obj kvs, k, v => .obj (assocSet kvs k v)
  | j, _, _ => j

/-- Python `dict.update`: fold `assocSet` over the update list. -/
def pyDictUpdate (d : List (String × Json)) : List (String × Json) → List (String × Json)
  | [] => d
  | (k, v) :: rest => pyDictUpdate (assocSet d k v) rest

/-- Lookup of a key in a `Json` dict (`none` on non-dicts). -/
def objLookup (key : String) : Json → Option Json
  | .obj kvs => kvs.lookup key
  | _ => none

/-- The key list of a `Json` dict. -/
def objKeys : Json → List String
  | .obj kvs => kvs.map Prod.fst
  | _ => []

/-- The field list of a `Json` dict. -/
def objFields : Json → List (String × Json)
  | .obj kvs => kvs
  | _ => []

/-- Numeric value of a digit character. -/
def digToNat (c : Char) : ℕ := c.toNat - 48

/-- Value of a digit string. -/
def natOfDigits (l : List Char) : ℕ := l.foldl (fun a c => 10 * a + digToNat c) 0

/-- Python `float(s)` on a string, modelled for plain decimal literals
(optional surrounding whitespace, optional sign, digits with an optional
decimal point).  `none` models `ValueError`.  Known gap: Python's `float()`
additionally accepts exponent notation and the words `inf`/`nan`, which this
`ℚ`-valued parser maps to `none` instead; an exponent literal or `"inf"`
would really take the success path (and then be clamped into `[0, 1]`), and
`"nan"` would take the success path and escape the clamp — the NaN escape is
treated over `PyFloat` (claim C2), where the value is representable. -/
def parsePyFloatCore (l0 : List Char) : Option ℚ :=
  let l := pyStrip l0
  let sgn : ℚ := if l.head? = some '-' then -1 else 1
  let l2 := if l.head? = some '-' ∨ l.head? = some '+' then l.tail else l
  let ip := l2.takeWhile Char.isDigit
  let rest := l2.dropWhile Char.isDigit
  match rest with
  | [] => if ip.isEmpty then none else some (sgn * (natOfDigits ip : ℚ))
  | c :: frac =>
    if c = '.' ∧ frac.all Char.isDigit ∧ (ip ≠ [] ∨ frac ≠ []) then
      some (sgn * ((natOfDigits ip : ℚ) + (natOfDigits frac : ℚ) / (10 : ℚ) ^ frac.length))
    else none

/-- Python `float(x)` on a JSON-decoded value: numbers pass through, bools
coerce to 0/1, strings are parsed (`ValueError` on failure), everything else
raises `TypeError`.  Inherits the two NaN gaps: a `num` carrying NaN is not
representable in `Json`, and a `"nan"` string is mapped to `ValueError`
although Python's `float()` accepts it — see `PyFloat` and claim C2 for the
NaN-faithful treatment of the confidence slot. -/
def pyFloat : Json → Except PyExc ℚ
  | .num q => .ok q
  | .bool b => .ok (if b then 1 else 0)
  | .str s =>
    match parsePyFloatCore s.toList with
    | some q => .ok q
    | none => .error (.valueError ("could not convert string to float: " ++ s))
  | .null => .error (.typeError "float() argument must be a string or a real number, not NoneType")
  | .obj _ => .error (.typeError "float() argument must be a string or a real number, not dict")

/-! ## The classifier call (lines 95-173 of `classify.py`) -/
/-- Line 147: `all(key in result for key in [kNeighborhood, kConfidence,
kRationale])`, with the generator's short-circuit evaluation order. -/
def hasKeysCheck (j : Json) : Except PyExc Bool :=
  match pyContains kNeighborhood j with
  | .error e => .error e
  | .ok false => .ok false
  | .ok true =>
    match pyContains kConfidence j with
    | .error e => .error e
    | .ok false => .ok false
    | .ok true => pyContains kRationale j

/-- Lines 152-153: leave an in-range confidence alone, clamp an out-of-range
one with `min(max(confidence, 0.0), 1.0)`. -/
def clampConf (q : ℚ) : ℚ := if 0 ≤ q ∧ q ≤ 1 then q else min (max q 0) 1

/-- The values Python's float layer can carry at the confidence slot: the
finite floats (modelled exactly as `ℚ`) plus NaN, which `json.loads`
produces for the default-enabled JSON literal `NaN` and which `float()`
passes through.  The infinities are not distinguished: under lines 150-154
they behave like any out-of-range finite value (both get clamped into
`[0, 1]`), so only NaN needs the refinement. -/
inductive PyFloat where
  | nan : PyFloat
  | fin (q : ℚ) : PyFloat
  deriving DecidableEq

/-- Python `<` on floats: every comparison involving NaN is false. -/
def pyLtF : PyFloat → PyFloat → Bool
  | .fin a, .fin b => a < b
  | _, _ => false

/-- Python `<=` on floats: false whenever either side is NaN. -/
def pyLeF : PyFloat → PyFloat → Bool
  | .fin a, .fin b => a ≤ b
  | _, _ => false

/-- Python `max(a, b)`: keep `a` unless `b` compares greater, so
`max(nan, x) = nan` (the comparison `x > nan` is false). -/
def pyMaxF (a b : PyFloat) : PyFloat := if pyLtF a b then b else a

/-- Python `min(a, b)`: keep `a` unless `b` compares smaller, so
`min(nan, x) = nan` (the comparison `x < nan` is false). -/
def pyMinF (a b : PyFloat) : PyFloat := if pyLtF b a then b else a

/-- Lines 150-154 over the NaN-aware float domain:
`if not (0.0 <= confidence <= 1.0): confidence = min(max(confidence, 0.0), 1.0)`,
with Python's chained comparison as the conjunction of the two `<=`.  On a
finite value this is exactly `clampConf`; NaN fails the range test and then
passes through both `max` and `min` unchanged. -/
def clampConfPy (v : PyFloat) : PyFloat :=
  if pyLeF (.fin 0) v && pyLeF v (.fin 1) then v
  else pyMinF (pyMaxF v (.fin 0)) (.fin 1)

/-- Lines 147-156: validate the three required keys (`ValueError` when one is
missing), coerce `confidence` with `float`, clamp it, and store it back into
the parsed object. -/
def validate_confidence (j : Json) : Except PyExc Json :=
  match hasKeysCheck j with
  | .error e => .error e
  | .ok false => .error (.valueError "Missing required fields in response")
  | .ok true =>
    match pyGetItem j kConfidence with
    | .error e => .error e
    | .ok v =>
      match pyFloat v with
      | .error e => .error e
      | .ok q => .ok (jsonSetKey j kConfidence (.num (clampConf q)))

/-- The degraded three-field result returned on every failure path. -/
def failResult (r : String) : Json :=
  .obj [(kNeighborhood, .str "unknown"), (kConfidence, .num 0), (kRationale, .str r)]

/-- Outcome of the remote call (`client.messages.create` plus reading
`message.content[0].text.strip()`): either the response text, or any
exception raised up to that point. -/
inductive Transport where
  | ok (text : List Char) : Transport
  | fail (msg : String) : Transport

/-- Lines 99-103: append tag and category sections to the article body when
those fields are non-empty (Python truthiness of strings). -/
def build_full_content (content tags categories : String) : String :=
  (content ++ (if tags ≠ "" then "\n\nTags: " ++ tags else ""))
    ++ (if categories ≠ "" then "\n\nCategories: " ++ categories else "")

/-- Lines 143-165: the inner `try` block.  `json.loads` is the abstract
`parseJson` argument; its failure is a `JSONDecodeError`.  The inner handler
catches `JSONDecodeError` and `ValueError` and degrades them to the
`API parsing error:` result; every other exception (notably `TypeError`
from the validation of a non-dict parse result or a non-coercible
confidence) propagates out as the `.error` case. -/
def classify_inner (parseJson : List Char → Except String Json) (text : List Char) :
    Except PyExc Json :=
  match
    (match parseJson (extract_json_text text) with
     | .error m => Except.error (PyExc.jsonDecode m)
     | .ok j => validate_confidence j) with
  | .ok r => .ok r
  | .error e =>
    if innerCaught e then .ok (failResult ("API parsing error: " ++ excMsg e))
    else .error e

/-- Lines 95-173: `classify_article`.  The outer `try` catches everything the
body raises — a transport failure or an escaped inner exception — and
degrades it to the `API error:` result. -/
def classify_article (transport : String → String → Transport)
    (parseJson : List Char → Except String Json)
    (title content tags categories : String) : Json :=
  match transport title (build_full_content content tags categories) with
  | .fail m => failResult ("API error: " ++ m)
  | .ok text =>
    match classify_inner parseJson text with
    | .ok r => r
    | .error e => failResult ("API error: " ++ excMsg e)

/-- Boolean string-prefix test, used to state the rationale-prefix claims. -/
def strLeads (p s : String) : Bool := leadsWith p.toList s.toList

/-! ## Concrete transports and parser behaviours used as test inputs -/
/-- A transport whose remote call succeeds with response text `null`
(remote behaviour the real service can exhibit). -/
def cxTransportNull : String → String → Transport := fun _ _ => Transport.ok ("null".toList)

/-- The behaviour of `json.loads` on the text `null`: it succeeds and
returns Python `None`. -/
def cxParseNull : List Char → Except String Json := fun _ => Except.ok Json.null

/-- A transport whose remote call succeeds with a fixed one-character text. -/
def cxTransportX : String → String → Transport := fun _ _ => Transport.ok ("x".toList)

/-- A parser behaviour that yields the given object. -/
def cxParseConst (j : Json) : List Char → Except String Json := fun _ => Except.ok j

/-- A well-formed parsed object with an extra fourth key and an out-of-range
confidence 1.7. -/
def goodObj : Json :=
  .obj [(kNeighborhood, .str "Mission"), (kConfidence, .num (17 / 10)),
        (kRationale, .str "about the Mission"), ("extra", .str "kept")]

/-- A parsed object that has all three required keys but whose confidence is
a non-numeric string. -/
def badConfObj : Json :=
  .obj [(kNeighborhood, .str "Mission"), (kConfidence, .str "abc"), (kRationale, .str "r")]

/-! ## CSV serialization (model of `csv.DictWriter` / `csv.DictReader` with
the default dialect: separator `,`, quote `"`, terminator CRLF, minimal
quoting) -/
/-- Characters that force quoting under `QUOTE_MINIMAL`. -/
def csvSpecial (c : Char) : Bool := c == ',' || c == '"' || c == '\r' || c == '\n'

/-- Whether a field must be quoted. -/
def needsQuote (f : List Char) : Bool := f.any csvSpecial

/-- Double every quote character (the body of a quoted field). -/
def escBody : List Char → List Char
  | [] => []
  | c :: r => if c = '"' then '"' :: '"' :: escBody r else c :: escBody r

/-- Encode one field with minimal quoting. -/
def escapeField (f : List Char) : List Char :=
  if needsQuote f then '"' :: (escBody f ++ ['"']) else f

/-- Join encoded fields with commas. -/
def joinComma : List (List Char) → List Char
  | [] => []
  | [f] => escapeField f
  | f :: rest => escapeField f ++ ',' :: joinComma rest

/-- Encode one record.  The writer's special case: a record that is a single
empty field is emitted as `""` so that it is not mistaken for a blank line. -/
def encodeRecord (r : List (List Char)) : List Char :=
  match r with
  | [[]] => ['"', '"']
  | _ => joinComma r

/-- Encode records, each terminated by CRLF. -/
def encodeRecords : List (List (List Char)) → List Char
  | [] => []
  | r :: rest => encodeRecord r ++ '\r' :: '\n' :: encodeRecords rest

/-- How a field ended: at a comma, at a record terminator, or at the end of
the input. -/
inductive FieldEnd where
  | comma : FieldEnd
  | newline : FieldEnd
  | eof : FieldEnd
  deriving DecidableEq

/-- Read an unquoted field up to the next delimiter. -/
def readUnquoted : List Char → List Char × FieldEnd × List Char
  | [] => ([], .eof, [])
  | c :: r =>
    if c = ',' then ([], .comma, r)
    else if c = '\r' then ([], .newline, if r.head? = some '\n' then r.tail else r)
    else if c = '\n' then ([], .newline, r)
    else (c :: (readUnquoted r).1, (readUnquoted r).2.1, (readUnquoted r).2.2)

/-- Read the body of a quoted field (after the opening quote): `""` is an
escaped quote; after the closing quote any trailing characters up to the
delimiter are appended (the reader's non-strict behaviour). -/
def readQuoted : List Char → List Char × FieldEnd × List Char
  | [] => ([], .eof, [])
  | c :: r =>
    if c = '"' then
      match r with
      | c2 :: r2 =>
        if c2 = '"' then
          ('"' :: (readQuoted r2).1, (readQuoted r2).2.1, (readQuoted r2).2.2)
        else readUnquoted r
      | [] => ([], .eof, [])
    else (c :: (readQuoted r).1, (readQuoted r).2.1, (readQuoted r).2.2)

/-- Read one field. -/
def readField : List Char → List Char × FieldEnd × List Char
  | [] => ([], .eof, [])
  | c :: r => if c = '"' then readQuoted r else readUnquoted (c :: r)

/-- Read the fields of one record (the loop continues while a field ends at
a comma).  The fuel argument only bounds recursion depth: one unit per
field, and `readRecord` supplies more than the record can hold. -/
def readFieldsLoop : ℕ → List Char → List (List Char) × List Char
  | 0, s => ([], s)
  | fuel + 1, s =>
    match readField s with
    | (f, .comma, rest) =>
      ((f :: (readFieldsLoop fuel rest).1), (readFieldsLoop fuel rest).2)
    | (f, _, rest) => ([f], rest)

/-- Read one record: a blank line is the empty record, as in the `csv`
reader. -/
def readRecord (s : List Char) : List (List Char) × List Char :=
  match s with
  | [] => ([], [])
  | c :: r =>
    if c = '\r' then ([], if r.head? = some '\n' then r.tail else r)
    else if c = '\n' then ([], r)
    else readFieldsLoop (s.length + 1) (c :: r)

/-- Read all records (with fuel, which `csvParse` supplies amply). -/
def readRecords : ℕ → List Char → List (List (List Char))
  | 0, _ => []
  | fuel + 1, s =>
    if s.isEmpty then []
    else
      let p := readRecord s
      p.1 :: readRecords fuel p.2

/-- Parse a CSV character stream into records. -/
def csvParse (s : List Char) : List (List (List Char)) := readRecords (s.length + 1) s

/-! ## DictReader / DictWriter row models -/
/-- Build a Python dict from key/value pairs in order (`dict(zip(...))`
semantics: a repeated key keeps its first position, last value wins). -/
def dictOfPairs (ps : List (String × Json)) : List (String × Json) :=
  ps.foldl (fun d kv => assocSet d kv.1 kv.2) []

/-- Zip fieldnames with row values; missing values become the restval
`None`.  (Extra values beyond the fieldnames would go under the reader's
`restkey`; that non-string key is outside this model and carries no
identifier, so it is omitted.) -/
def zipHdr : List String → List Json → List (String × Json)
  | [], _ => []
  | h :: hs, [] => (h, Json.null) :: zipHdr hs []
  | h :: hs, v :: vs => (h, v) :: zipHdr hs vs

/-- One `DictReader` row from the header and a record. -/
def dictRowOf (hdr : List String) (rec : List (List Char)) : List (String × Json) :=
  dictOfPairs (zipHdr hdr (rec.map (fun f => Json.str (String.mk f))))

/-- `list(csv.DictReader(f))`: the first record is the header; blank records
are skipped; each remaining record becomes a row keyed by the header. -/
def dictRows (recs : List (List (List Char))) : List (List (String × Json)) :=
  match recs with
  | [] => []
  | hdr :: body =>
    (body.filter (fun r => !r.isEmpty)).map (dictRowOf (hdr.map (fun f => String.mk f)))

/-- Decimal representation of a nonnegative rational with a power-of-ten
denominator (computed on the numerator and denominator directly, with the
smallest exponent, as the shortest-repr printing does). -/
def numReprNN (q : ℚ) : String :=
  match (List.range 31).find? (fun k => (10 : ℕ) ^ k % q.den = 0) with
  | some k =>
    let n := q.num.toNat * ((10 : ℕ) ^ k / q.den)
    if k = 0 then toString n ++ ".0"
    else
      let digs := (toString n).toList
      let digs := if digs.length ≤ k then List.replicate (k + 1 - digs.length) '0' ++ digs
                  else digs
      String.mk (digs.take (digs.length - k)) ++ "." ++ String.mk (digs.drop (digs.length - k))
  | none => toString q.num ++ "/" ++ toString q.den

/-- Python `str()` of a float-like rational, in the decimal form the `csv`
writer emits for this program's confidence values (`0.9`, `1.0`, ...).
The model does not distinguish JSON ints from floats (see `Json.num`);
non-decimal rationals fall back to a fraction form never reached by the
program. -/
def numRepr (q : ℚ) : String :=
  if q < 0 then "-" ++ numReprNN (-q) else numReprNN q

/-- The string the `csv` writer puts in a cell for a given value: `None`
serializes as the empty cell, booleans as `True`/`False`. -/
def csvCellStr : Json → String
  | .null => ""
  | .bool b => if b then "True" else "False"
  | .num q => numRepr q
  | .str s => s
  | .obj _ => String.mk [lbrace, rbrace]

/-! ## File-system model -/
/-- An association-list update for the file table (same discipline as
`assocSet`, at the file-table type). -/
def storeSet : List (String × Option (List Char)) → String → Option (List Char) →
    List (String × Option (List Char))
  | [], p, c => [(p, c)]
  | (p', c') :: rest, p, c =>
    if p' = p then (p, c) :: rest else (p', c') :: storeSet rest p c

/-- The file system: a table from paths to file states (`some content` for a
readable file, `none` for a file that exists but raises on read — the
unreadable/corrupt case), plus the set of paths on which opening for write
raises. -/
structure FS where
  files : List (String × Option (List Char))
  badWrite : List String
  deriving DecidableEq

/-- Python `os.path.exists`. -/
def fsExists (fs : FS) (p : String) : Bool := (fs.files.lookup p).isSome

/-- Python `os.remove` (only called by the code after an existence check). -/
def fsRemove (fs : FS) (p : String) : FS :=
  ⟨fs.files.filter (fun kv => !(kv.1 == p)), fs.badWrite⟩

/-! ## Checkpoint store (lines 176-213 of `classify.py`) -/
/-- The key list of a row dict, in insertion order. -/
def rowKeys (row : List (String × Json)) : List String := row.map Prod.fst

/-- `DictWriter._dict_to_list`: the cell for each fieldname; a missing key
yields the restval `None`, written as the empty cell. -/
def rowCells (fieldnames : List String) (row : List (String × Json)) : List (List Char) :=
  fieldnames.map (fun fn =>
    match row.lookup fn with
    | some v => (csvCellStr v).toList
    | none => [])

/-- `DictWriter`'s per-row check: a key outside the fieldnames raises
`ValueError`. -/
def rowExtraOk (fieldnames : List String) (row : List (String × Json)) : Bool :=
  row.all (fun kv => fieldnames.contains kv.1)

/-- `writer.writerows`: encode rows until the first row with an extra key;
the boolean records whether all rows were written (a `False` is the caught
`ValueError`, leaving the file truncated after the already-written prefix). -/
def encodeRowsPartial (fieldnames : List String) :
    List (List (String × Json)) → List (List (List Char)) × Bool
  | [] => ([], true)
  | row :: rest =>
    if rowExtraOk fieldnames row then
      ((rowCells fieldnames row :: (encodeRowsPartial fieldnames rest).1),
        (encodeRowsPartial fieldnames rest).2)
    else ([], false)

/-- Lines 176-192, `save_progress`: no-op on an empty row list; fieldnames
from the first row's keys; open `output_file + ".tmp"` for writing (an
`OSError` here is caught and logged, leaving the file system unchanged);
write the header and then the rows, catching the `ValueError` a row with
extra keys raises (the file then keeps the prefix written so far).  The
function never lets an exception escape. -/
def save_progress (fs : FS) (output_file : String) (results : List (List (String × Json))) :
    FS :=
  match results with
  | [] => fs
  | r0 :: _ =>
    if (output_file ++ ".tmp") ∈ fs.badWrite then fs
    else
      ⟨storeSet fs.files (output_file ++ ".tmp")
        (some (encodeRecords
          (((rowKeys r0).map String.toList) :: (encodeRowsPartial (rowKeys r0) results).1))),
        fs.badWrite⟩

/-- Lines 195-213, `load_existing_progress`: absent checkpoint — empty state;
unreadable checkpoint — log and return empty state (the except branch);
readable checkpoint — `DictReader` rows plus the set of non-empty `id`
values.  The file system is passed through untouched: the function performs
no write or remove.  (`processed_ids` is a Python set; it is modelled as a
duplicate-free list built in first-appearance order.) -/
def load_existing_progress (fs : FS) (output_file : String) :
    FS × List (List (String × Json)) × List String :=
  match fs.files.lookup (output_file ++ ".tmp") with
  | none => (fs, [], [])
  | some none => (fs, [], [])
  | some (some content) =>
    let results := dictRows (csvParse content)
    (fs, results,
      results.foldl (fun acc row =>
        match row.lookup kId with
        | some (.str s) => if s ≠ "" ∧ s ∉ acc then acc ++ [s] else acc
        | _ => acc) [])

/-- The shapes that can follow an encoded field: end of input, a comma, or
the CRLF record terminator. -/
def delimShape (rest : List Char) : Prop :=
  rest = [] ∨ (∃ r, rest = ',' :: r) ∨ (∃ r, rest = '\r' :: '\n' :: r)

/-- The row `DictReader` reconstructs for a saved row: keyed in fieldname
order, every value the CSV string of the original value. -/
def normalizeRow (fieldnames : List String) (row : List (String × Json)) :
    List (String × Json) :=
  fieldnames.map (fun fn => (fn, Json.str (csvCellStr ((row.lookup fn).getD Json.null))))

/-- The empty file system. -/
def fsEmpty : FS := ⟨[], []⟩

/-- The output path of `main` (`classified.csv`). -/
def outName : String := "classified.csv"

/-- A single checkpoint row with a numeric field value. -/
def cxNumRows : List (List (String × Json)) := [[(kId, Json.str "a"), ("n", Json.num 0)]]

/-! ## The batch driver (lines 216-327 of `classify.py`) -/
/-- The key string `title`. -/
def kTitle : String := "title"

/-- The key string `clean_content`. -/
def kContent : String := "clean_content"

/-- The key string `tags`. -/
def kTags : String := "tags"

/-- The key string `categories`. -/
def kCategories : String := "categories"

/-- Python `row.get(k, '')` on a string-valued CSV row.  A `None` restval is
conflated with the empty string: both are falsy, neither can be in
`processed_ids`, and the difference is invisible to every use in `main`. -/
def getStr (row : List (String × Json)) (k : String) : String :=
  match row.lookup k with
  | some (.str s) => s
  | _ => ""

/-- The observable actions of a run, in order: a checkpoint save (with the
rows passed to `save_progress`), the final output write, and the removal of
the checkpoint file. -/
inductive Event where
  | evSave (rows : List (List (String × Json))) : Event
  | evWriteFinal (rows : List (List (String × Json))) : Event
  | evRemoveTmp : Event
  deriving DecidableEq

/-- State at loop exit: file system, events so far, accumulated rows, and
whether a `KeyboardInterrupt` fired. -/
structure LoopOut where
  fs : FS
  events : List Event
  results : List (List (String × Json))
  interrupted : Bool
  deriving DecidableEq

/-- Lines 253-291 of `main`: iterate the input rows.  `classifier` stands for
the call `classify_article(client, prompt_template, title, content, tags,
categories)` (total by claim C1, which is why the loop absorbs per-item
failures).  The interrupt counter models an external `KeyboardInterrupt`
observed at the start of the `(intr.get)`-th loop iteration; `none` means no
interrupt arrives.  Skips: an id already in `processed_ids`, and an item
with neither title nor content.  `processed_ids` is never extended — exactly
as in the source.  Every `save_frequency`-th append checkpoints. -/
def runLoop (classifier : String → String → String → String → Json)
    (save_frequency : ℕ) (output_file : String) :
    List (List (String × Json)) → Option ℕ → FS → List Event →
    List (List (String × Json)) → List String → ℕ → LoopOut
  | [], _, fs, evs, results, _, _ => ⟨fs, evs, results, false⟩
  | item :: rest, intr, fs, evs, results, pids, processed_rows =>
    if intr = some 0 then ⟨fs, evs, results, true⟩
    else
      if getStr item kId ∈ pids then
        runLoop classifier save_frequency output_file rest (intr.map (· - 1)) fs evs
          results pids processed_rows
      else
        if getStr item kTitle = "" ∧ getStr item kContent = "" then
          runLoop classifier save_frequency output_file rest (intr.map (· - 1)) fs evs
            results pids processed_rows
        else
          if (processed_rows + 1) % save_frequency = 0 then
            runLoop classifier save_frequency output_file rest (intr.map (· - 1))
              (save_progress fs output_file (results ++ [pyDictUpdate item
                (objFields (classifier (getStr item kTitle) (getStr item kContent)
                  (getStr item kTags) (getStr item kCategories)))]))
              (evs ++ [.evSave (results ++ [pyDictUpdate item
                (objFields (classifier (getStr item kTitle) (getStr item kContent)
                  (getStr item kTags) (getStr item kCategories)))])])
              (results ++ [pyDictUpdate item
                (objFields (classifier (getStr item kTitle) (getStr item kContent)
                  (getStr item kTags) (getStr item kCategories)))])
              pids (processed_rows + 1)
          else
            runLoop classifier save_frequency output_file rest (intr.map (· - 1)) fs evs
              (results ++ [pyDictUpdate item
                (objFields (classifier (getStr item kTitle) (getStr item kContent)
                  (getStr item kTags) (getStr item kCategories)))])
              pids (processed_rows + 1)

/-- Result of a whole run: final file system, events, the accumulated rows,
and the process exit status. -/
structure RunOut where
  fs : FS
  events : List Event
  rows : List (List (String × Json))
  exitCode : ℕ
  deriving DecidableEq

/-- Lines 293-327 of `main`, after the loop: on interrupt, save the
checkpoint when rows exist and `sys.exit(0)`; otherwise write the final
output (an open failure or a `ValueError` from a row with extra keys is
caught by `except Exception`, which checkpoints and exits 1) and, on a full
write, remove the checkpoint when it exists. -/
def finalizeRun (output_file : String) (out : LoopOut) : RunOut :=
  if out.interrupted then
    if out.results.isEmpty then ⟨out.fs, out.events, out.results, 0⟩
    else ⟨save_progress out.fs output_file out.results,
      out.events ++ [.evSave out.results], out.results, 0⟩
  else
    match out.results with
    | [] => ⟨out.fs, out.events, out.results, 0⟩
    | r0 :: _ =>
      if output_file ∈ out.fs.badWrite then
        ⟨save_progress out.fs output_file out.results,
          out.events ++ [.evSave out.results], out.results, 1⟩
      else
        if (encodeRowsPartial (rowKeys r0) out.results).2 then
          if fsExists
              ⟨storeSet out.fs.files output_file
                (some (encodeRecords (((rowKeys r0).map String.toList)
                  :: (encodeRowsPartial (rowKeys r0) out.results).1))),
                out.fs.badWrite⟩
              (output_file ++ ".tmp") then
            ⟨fsRemove
                ⟨storeSet out.fs.files output_file
                  (some (encodeRecords (((rowKeys r0).map String.toList)
                    :: (encodeRowsPartial (rowKeys r0) out.results).1))),
                  out.fs.badWrite⟩
                (output_file ++ ".tmp"),
              out.events ++ [.evWriteFinal out.results, .evRemoveTmp], out.results, 0⟩
          else
            ⟨⟨storeSet out.fs.files output_file
                (some (encodeRecords (((rowKeys r0).map String.toList)
                  :: (encodeRowsPartial (rowKeys r0) out.results).1))),
                out.fs.badWrite⟩,
              out.events ++ [.evWriteFinal out.results], out.results, 0⟩
        else
          ⟨save_progress
              ⟨storeSet out.fs.files output_file
                (some (encodeRecords (((rowKeys r0).map String.toList)
                  :: (encodeRowsPartial (rowKeys r0) out.results).1))),
                out.fs.badWrite⟩
              output_file out.results,
            out.events ++ [.evSave out.results], out.results, 1⟩

/-- Lines 216-327 of `main` (with the configuration and pre-flight checks
already passed): load the checkpoint, run the loop over the input rows, then
finalize or handle the interrupt. -/
def run (classifier : String → String → String → String → Json)
    (save_frequency : ℕ) (output_file : String)
    (input_rows : List (List (String × Json))) (intr : Option ℕ) (fs : FS) : RunOut :=
  finalizeRun output_file
    (runLoop classifier save_frequency output_file input_rows intr fs []
      (load_existing_progress fs output_file).2.1
      (load_existing_progress fs output_file).2.2
      (load_existing_progress fs output_file).2.1.length)

/-! ## Concrete driver scenarios -/
/-- An input row with an id and a title (content, tags, categories absent,
i.e. read back as the empty string by `row.get`). -/
def mkItem (i t : String) : List (String × Json) :=
  [(kId, Json.str i), (kTitle, Json.str t)]

/-- A stand-in classifier that always returns a well-formed three-field
result (rationale echoes the title). -/
def demoClassifier (t c tg cg : String) : Json :=
  Json.obj [(kNeighborhood, Json.str "Mission"), (kConfidence, Json.num 0),
    (kRationale, Json.str t)]

/-- The row the driver appends for `mkItem i t` under `demoClassifier`. -/
def demoRow (i t : String) : List (String × Json) :=
  pyDictUpdate (mkItem i t) (objFields (demoClassifier t "" "" ""))

/-- The three-item source of the spec's fresh-run scenario. -/
def demoItems : List (List (String × Json)) :=
  [mkItem "a" "t1", mkItem "b" "t2", mkItem "c" "t3"]

/-! ## Lemmas about the string primitives -/
theorem dropWhile_dropWhile (p : Char → Bool) :
    ∀ l : List Char, (l.dropWhile p).dropWhile p = l.dropWhile p
  | [] => rfl
  | c :: r => by
    by_cases h : p c
    · simp only [List.dropWhile_cons, h, if_true]
      exact dropWhile_dropWhile p r
    · simp [List.dropWhile_cons, h]

theorem head?_dropWhile_not (p : Char → Bool) :
    ∀ (l : List Char) (c : Char), (l.dropWhile p).head? = some c → p c = false
  | [], c => by simp [List.dropWhile]
  | x :: r, c => by
    by_cases h : p x
    · simp only [List.dropWhile_cons, h, if_true]
      exact head?_dropWhile_not p r c
    · intro he
      simp only [List.dropWhile_cons, if_neg h, List.head?_cons, Option.some.injEq] at he
      subst he
      simpa using h

theorem dropWhile_eq_self (p : Char → Bool) (l : List Char)
    (h : ∀ c, l.head? = some c → p c = false) : l.dropWhile p = l := by
  cases l with
  | nil => rfl
  | cons x r => simp [List.dropWhile_cons, h x rfl]

theorem pyStrip_idem (l : List Char) : pyStrip (pyStrip l) = pyStrip l := by
  unfold pyStrip
  have h1 : ((((l.dropWhile pySpace).reverse.dropWhile pySpace).reverse).dropWhile pySpace)
      = ((l.dropWhile pySpace).reverse.dropWhile pySpace).reverse := by
    apply dropWhile_eq_self
    intro c hc
    have hsplit : (l.dropWhile pySpace).reverse.takeWhile pySpace
        ++ (l.dropWhile pySpace).reverse.dropWhile pySpace = (l.dropWhile pySpace).reverse :=
      List.takeWhile_append_dropWhile pySpace _
    have hA2 : l.dropWhile pySpace
        = ((l.dropWhile pySpace).reverse.dropWhile pySpace).reverse
          ++ ((l.dropWhile pySpace).reverse.takeWhile pySpace).reverse := by
      conv_lhs => rw [← List.reverse_reverse (l.dropWhile pySpace), ← hsplit]
      rw [List.reverse_append]
    have hcA : (l.dropWhile pySpace).head? = some c := by
      rw [hA2, List.head?_append, hc]
      rfl
    exact head?_dropWhile_not pySpace l c hcA
  rw [h1, List.reverse_reverse, dropWhile_dropWhile]

theorem pyStrip_eq_self (l : List Char)
    (h1 : ∀ c, l.head? = some c → pySpace c = false)
    (h2 : ∀ c, l.getLast? = some c → pySpace c = false) : pyStrip l = l := by
  unfold pyStrip
  rw [dropWhile_eq_self _ _ h1]
  rw [dropWhile_eq_self _ _ (fun c hc => h2 c (by rwa [List.head?_reverse] at hc))]
  exact List.reverse_reverse l

theorem firstIdx_some (c : Char) :
    ∀ (l : List Char) (i : ℕ), firstIdx c l = some i → i < l.length ∧ l[i]? = some c
  | [], i => by simp [firstIdx]
  | x :: r, i => by
    by_cases h : x == c
    · simp only [firstIdx, h, if_true, Option.some.injEq]
      intro hi
      subst hi
      refine ⟨by simp, ?_⟩
      simpa using (eq_of_beq h)
    · simp only [firstIdx, if_neg h]
      cases hf : firstIdx c r with
      | none => simp
      | some j =>
        intro hi
        simp only [Option.map_some', Option.some.injEq] at hi
        subst hi
        obtain ⟨hlt, hget⟩ := firstIdx_some c r j hf
        refine ⟨by simpa using Nat.succ_lt_succ hlt, by simpa using hget⟩

theorem lastIdx_some (c : Char) (l : List Char) (j : ℕ) (h : lastIdx c l = some j) :
    j < l.length ∧ l[j]? = some c := by
  unfold lastIdx at h
  cases hf : firstIdx c l.reverse with
  | none => rw [hf] at h; simp at h
  | some i =>
    rw [hf] at h
    simp only [Option.map_some', Option.some.injEq] at h
    obtain ⟨hi, hget⟩ := firstIdx_some c l.reverse i hf
    rw [List.length_reverse] at hi
    have hrev : l.reverse[i]? = l[l.length - 1 - i]? := by
      rw [List.getElem?_reverse hi]
    subst h
    exact ⟨by omega, by rw [← hrev]; exact hget⟩

theorem leadsWith_take (sep : List Char) :
    ∀ (l : List Char) (n : ℕ), leadsWith sep (l.take n) = true → leadsWith sep l = true := by
  induction sep with
  | nil => intro l n _; rfl
  | cons a as ih =>
    intro l n hl
    cases l with
    | nil => simpa using hl
    | cons b bs =>
      cases n with
      | zero => simp [leadsWith] at hl
      | succ m =>
        simp only [List.take_succ_cons, leadsWith, Bool.and_eq_true] at hl ⊢
        exact ⟨hl.1, ih bs m hl.2⟩

theorem firstInfixIdx_take_none (sep : List Char) :
    ∀ (l : List Char) (k : ℕ), firstInfixIdx sep l = some k →
      firstInfixIdx sep (l.take k) = none
  | [], k => by simp [firstInfixIdx]
  | c :: rest, k => by
    by_cases h : leadsWith sep (c :: rest)
    · simp only [firstInfixIdx, h, if_true, Option.some.injEq]
      intro hk
      subst hk
      simp [firstInfixIdx]
    · simp only [firstInfixIdx, if_neg h]
      cases hf : firstInfixIdx sep rest with
      | none => simp
      | some j =>
        intro hk
        simp only [Option.map_some', Option.some.injEq] at hk
        subst hk
        simp only [List.take_succ_cons, firstInfixIdx]
        have hlw : leadsWith sep (c :: rest.take j) = false := by
          cases hcon : leadsWith sep (c :: rest.take j)
          · rfl
          · exfalso
            have := leadsWith_take sep (c :: rest) (j + 1)
              (by simpa [List.take_succ_cons] using hcon)
            simp [this] at h
        rw [if_neg (by simp [hlw])]
        simp [firstInfixIdx_take_none sep rest j hf]

theorem splitFirst_eq (sep : List Char) :
    ∀ s : List Char, splitFirst sep s
      = (firstInfixIdx sep s).map (fun i => (s.take i, s.drop (i + sep.length)))
  | [] => by simp [splitFirst, firstInfixIdx]
  | c :: rest => by
    by_cases h : leadsWith sep (c :: rest)
    · simp [splitFirst, firstInfixIdx, h]
    · simp only [splitFirst, firstInfixIdx, if_neg h]
      rw [splitFirst_eq sep rest]
      cases hf : firstInfixIdx sep rest with
      | none => simp
      | some i =>
        simp only [Option.map_some']
        have : i + 1 + sep.length = (i + sep.length) + 1 := by omega
        simp [List.take_succ_cons, List.drop_succ_cons, this]

theorem containsSub_eq (sep s : List Char) :
    containsSub sep s = (firstInfixIdx sep s).isSome := by
  unfold containsSub
  rw [splitFirst_eq]
  cases firstInfixIdx sep s <;> rfl

theorem split0_eq (sep s : List Char) :
    split0 sep s = match firstInfixIdx sep s with
      | some k => s.take k
      | none => s := by
  unfold split0
  rw [splitFirst_eq]
  cases firstInfixIdx sep s <;> rfl

theorem split1_eq (sep s : List Char) (i : ℕ) (h : firstInfixIdx sep s = some i) :
    split1 sep s = match firstInfixIdx sep (s.drop (i + sep.length)) with
      | some j => (s.drop (i + sep.length)).take j
      | none => s.drop (i + sep.length) := by
  unfold split1
  rw [splitFirst_eq, h]
  simp only [Option.map_some']
  rw [splitFirst_eq]
  cases firstInfixIdx sep (s.drop (i + sep.length)) <;> rfl

theorem fenceCut_strip (t : List Char) : pyStrip (fenceCut t) = pyStrip (specFenceRaw t) := by
  unfold fenceCut specFenceRaw
  cases hj : firstInfixIdx fenceJsonChars t with
  | some i =>
    rw [if_pos (by rw [containsSub_eq, hj]; rfl), pyStrip_idem]
    congr 1
    have h1 := split1_eq fenceJsonChars t i hj
    cases h2 : firstInfixIdx fenceJsonChars (t.drop (i + fenceJsonChars.length)) with
    | some j =>
      rw [h2] at h1
      simp only [h1, split0_eq, h2]
    | none =>
      rw [h2] at h1
      simp only [h1, split0_eq, h2]
  | none =>
    rw [if_neg (by rw [containsSub_eq, hj]; simp)]
    cases hp : firstInfixIdx fenceChars t with
    | some i =>
      rw [if_pos (by rw [containsSub_eq, hp]; rfl), pyStrip_idem]
      congr 1
      have h1 := split1_eq fenceChars t i hp
      cases h2 : firstInfixIdx fenceChars (t.drop (i + fenceChars.length)) with
      | some j =>
        rw [h2] at h1
        simp only [h1, split0_eq, firstInfixIdx_take_none _ _ _ h2, h2]
      | none =>
        rw [h2] at h1
        simp only [h1, split0_eq, h2]
    | none =>
      rw [if_neg (by rw [containsSub_eq, hp]; simp)]

theorem pySpace_lbrace : pySpace lbrace = false := by decide

theorem pySpace_rbrace : pySpace rbrace = false := by decide

theorem slice_head (t : List Char) (i j : ℕ) (hi : t[i]? = some lbrace) (hij : i < j) :
    ((t.drop i).take (j + 1 - i)).head? = some lbrace := by
  have hd : (t.drop i).head? = some lbrace := by rw [List.head?_drop]; exact hi
  cases hdi : t.drop i with
  | nil => rw [hdi] at hd; simp at hd
  | cons a l =>
    rw [hdi] at hd
    simp only [List.head?_cons, Option.some.injEq] at hd
    subst hd
    obtain ⟨m, hm⟩ : ∃ m, j + 1 - i = m + 1 := ⟨j - i, by omega⟩
    rw [hm, List.take_succ_cons]
    rfl

theorem slice_last (t : List Char) (i j : ℕ) (hj : t[j]? = some rbrace) (hij : i < j)
    (hjl : j < t.length) :
    ((t.drop i).take (j + 1 - i)).getLast? = some rbrace := by
  have hlen : ((t.drop i).take (j + 1 - i)).length = j + 1 - i := by
    rw [List.length_take, List.length_drop]
    omega
  rw [List.getLast?_eq_getElem?, hlen]
  have h1 : j + 1 - i - 1 = j - i := by omega
  rw [h1, List.getElem?_take_of_lt (by omega), List.getElem?_drop]
  have h2 : i + (j - i) = j := by omega
  rw [h2]
  exact hj

theorem braceStep (t : List Char) (ht : pyStrip t = t) :
    pyStrip (braceCut t) = specBraceSlice t := by
  unfold braceCut specBraceSlice
  cases hf : firstIdx lbrace t with
  | none =>
    have hFind : pyFind lbrace t = -1 := by unfold pyFind; rw [hf]
    rw [if_neg (by rw [hFind]; intro hcon; norm_num at hcon)]
    cases lastIdx rbrace t <;> exact ht
  | some i =>
    have hFind : pyFind lbrace t = (i : Int) := by unfold pyFind; rw [hf]
    obtain ⟨hilen, higet⟩ := firstIdx_some lbrace t i hf
    cases hl : lastIdx rbrace t with
    | none =>
      have hRFind : pyRFind rbrace t = -1 := by unfold pyRFind; rw [hl]
      rw [if_neg (by rw [hFind, hRFind]; intro hcon; omega)]
      exact ht
    | some j =>
      obtain ⟨hjlen, hjget⟩ := lastIdx_some rbrace t j hl
      have hRFind : pyRFind rbrace t = (j : Int) := by unfold pyRFind; rw [hl]
      by_cases hij : i < j
      · rw [if_pos ⟨by rw [hFind]; exact_mod_cast Nat.zero_le i,
          by rw [hFind, hRFind]; exact_mod_cast Nat.lt_succ_of_lt hij⟩]
        have h1 : (pyFind lbrace t).toNat = i := by rw [hFind]; exact Int.toNat_ofNat i
        have h2 : (pyRFind rbrace t + 1).toNat = j + 1 := by rw [hRFind]; omega
        rw [h1, h2]
        dsimp only
        rw [if_pos hij]
        unfold pySlice
        apply pyStrip_eq_self
        · intro c hc
          rw [slice_head t i j higet hij] at hc
          injection hc with hc
          rw [← hc]
          exact pySpace_lbrace
        · intro c hc
          rw [slice_last t i j hjget hij hjlen] at hc
          injection hc with hc
          rw [← hc]
          exact pySpace_rbrace
      · have hne : i ≠ j := by
          intro he
          rw [he, hjget] at higet
          injection higet with he'
          exact absurd (congrArg Char.toNat he') (by decide)
        rw [if_neg (by rw [hFind, hRFind]; intro hcon; have := hcon.2; omega)]
        dsimp only
        rw [if_neg hij]
        exact ht

/-- The extractor of `classify.py` agrees everywhere with its
specification-level description `specExtract`. -/
theorem extract_json_text_eq_spec (raw : List Char) :
    extract_json_text raw = specExtract raw := by
  unfold extract_json_text specExtract
  rw [fenceCut_strip]
  exact braceStep _ (pyStrip_idem _)

/-! ## Dict lemmas -/
theorem assocSet_lookup_self (l : List (String × Json)) (k : String) (v : Json) :
    (assocSet l k v).lookup k = some v := by
  induction l with
  | nil => simp [assocSet, List.lookup]
  | cons kv rest ih =>
    obtain ⟨k', v'⟩ := kv
    by_cases h : k' = k
    · simp [assocSet, h, List.lookup]
    · have hb : (k == k') = false := beq_eq_false_iff_ne.mpr (fun he => h he.symm)
      simp [assocSet, h, List.lookup, hb, ih]

theorem assocSet_lookup_other (l : List (String × Json)) (k : String) (v : Json)
    (k' : String) (h : k' ≠ k) : (assocSet l k v).lookup k' = l.lookup k' := by
  induction l with
  | nil =>
    have hb : (k' == k) = false := beq_eq_false_iff_ne.mpr h
    simp [assocSet, List.lookup, hb]
  | cons kv rest ih =>
    obtain ⟨k0, v0⟩ := kv
    by_cases h0 : k0 = k
    · subst h0
      have hb : (k' == k0) = false := beq_eq_false_iff_ne.mpr h
      simp [assocSet, List.lookup, hb]
    · simp only [assocSet, if_neg h0]
      by_cases h1 : k' = k0
      · have hb : (k' == k0) = true := beq_iff_eq.mpr h1
        simp [List.lookup, hb]
      · have hb : (k' == k0) = false := beq_eq_false_iff_ne.mpr h1
        simp [List.lookup, hb, ih]

theorem assocSet_keys_mem (l : List (String × Json)) (k : String) (v : Json)
    (a : String) (h : a ∈ l.map Prod.fst) : a ∈ (assocSet l k v).map Prod.fst := by
  induction l with
  | nil => simp at h
  | cons kv rest ih =>
    obtain ⟨k0, v0⟩ := kv
    by_cases h0 : k0 = k
    · subst h0
      simp only [List.map_cons] at h
      simpa [assocSet] using h
    · simp only [List.map_cons, List.mem_cons] at h
      rcases h with h | h
      · simp [assocSet, h0, h]
      · simp [assocSet, h0, ih h]

theorem assocSet_keys_self (l : List (String × Json)) (k : String) (v : Json) :
    k ∈ (assocSet l k v).map Prod.fst := by
  induction l with
  | nil => simp [assocSet]
  | cons kv rest ih =>
    obtain ⟨k0, v0⟩ := kv
    by_cases h0 : k0 = k
    · simp [assocSet, h0]
    · simp only [assocSet, if_neg h0, List.map_cons, List.mem_cons]
      exact Or.inr ih

theorem assocSet_keys_of_mem (l : List (String × Json)) (k : String) (v : Json)
    (h : k ∈ l.map Prod.fst) : (assocSet l k v).map Prod.fst = l.map Prod.fst := by
  induction l with
  | nil => simp at h
  | cons kv rest ih =>
    obtain ⟨k0, v0⟩ := kv
    by_cases h0 : k0 = k
    · simp [assocSet, h0]
    · simp only [List.map_cons, List.mem_cons] at h
      rcases h with h | h
      · exact absurd h.symm h0
      · simp [assocSet, h0, ih h]

theorem any_beq_mem (kvs : List (String × Json)) (key : String)
    (h : kvs.any (fun kv => kv.1 == key) = true) : key ∈ kvs.map Prod.fst := by
  simp only [List.any_eq_true] at h
  obtain ⟨kv, hm, he⟩ := h
  exact List.mem_map.mpr ⟨kv, hm, eq_of_beq he⟩

theorem pyDictUpdate_lookup_not_mem (upd : List (String × Json)) :
    ∀ (d : List (String × Json)) (k : String), k ∉ upd.map Prod.fst →
      (pyDictUpdate d upd).lookup k = d.lookup k := by
  induction upd with
  | nil => intro d k _; rfl
  | cons kv rest ih =>
    intro d k hk
    obtain ⟨k0, v0⟩ := kv
    simp only [List.map_cons, List.mem_cons, not_or] at hk
    simp only [pyDictUpdate]
    rw [ih _ _ hk.2, assocSet_lookup_other _ _ _ _ hk.1]

theorem pyDictUpdate_lookup_mem (upd : List (String × Json)) :
    ∀ (d : List (String × Json)) (k : String), (upd.map Prod.fst).Nodup →
      k ∈ upd.map Prod.fst → (pyDictUpdate d upd).lookup k = upd.lookup k := by
  induction upd with
  | nil => intro d k _ hk; simp at hk
  | cons kv rest ih =>
    intro d k hnd hk
    obtain ⟨k0, v0⟩ := kv
    simp only [List.map_cons, List.nodup_cons] at hnd
    simp only [List.map_cons, List.mem_cons] at hk
    simp only [pyDictUpdate]
    by_cases h0 : k = k0
    · subst h0
      rw [pyDictUpdate_lookup_not_mem rest _ _ hnd.1, assocSet_lookup_self]
      simp [List.lookup]
    · rcases hk with hk | hk
      · exact absurd hk h0
      · rw [ih _ _ hnd.2 hk]
        have hb : (k == k0) = false := beq_eq_false_iff_ne.mpr h0
        simp [List.lookup, hb]

/-! ## Inversion lemmas for the classifier call -/
theorem hasKeys_obj_mem (kvs : List (String × Json))
    (h : hasKeysCheck (.obj kvs) = .ok true) :
    kNeighborhood ∈ kvs.map Prod.fst ∧ kConfidence ∈ kvs.map Prod.fst
      ∧ kRationale ∈ kvs.map Prod.fst := by
  unfold hasKeysCheck pyContains at h
  dsimp only at h
  cases ha : kvs.any (fun kv => kv.1 == kNeighborhood) with
  | false => rw [ha] at h; simp at h
  | true =>
    rw [ha] at h
    cases hb : kvs.any (fun kv => kv.1 == kConfidence) with
    | false => rw [hb] at h; simp at h
    | true =>
      rw [hb] at h
      cases hc : kvs.any (fun kv => kv.1 == kRationale) with
      | false => rw [hc] at h; simp at h
      | true => exact ⟨any_beq_mem _ _ ha, any_beq_mem _ _ hb, any_beq_mem _ _ hc⟩

theorem validate_ok_inv (j r : Json) (h : validate_confidence j = .ok r) :
    ∃ kvs v q, j = .obj kvs ∧ hasKeysCheck j = .ok true
      ∧ kvs.lookup kConfidence = some v ∧ pyFloat v = .ok q
      ∧ r = .obj (assocSet kvs kConfidence (.num (clampConf q))) := by
  unfold validate_confidence at h
  cases hk : hasKeysCheck j with
  | error e => rw [hk] at h; simp at h
  | ok b =>
    cases b with
    | false => rw [hk] at h; simp at h
    | true =>
      rw [hk] at h
      dsimp only at h
      cases hg : pyGetItem j kConfidence with
      | error e => rw [hg] at h; simp at h
      | ok v =>
        rw [hg] at h
        dsimp only at h
        cases hf : pyFloat v with
        | error e => rw [hf] at h; simp at h
        | ok q =>
          rw [hf] at h
          simp only [Except.ok.injEq] at h
          cases j with
          | obj kvs =>
            refine ⟨kvs, v, q, rfl, rfl, ?_, hf, ?_⟩
            · unfold pyGetItem at hg
              dsimp only at hg
              cases hl : kvs.lookup kConfidence with
              | none => rw [hl] at hg; simp at hg
              | some v' => rw [hl] at hg; simp only [Except.ok.injEq] at hg; rw [hg]
            · rw [← h]; rfl
          | null => unfold pyGetItem at hg; simp at hg
          | bool b => unfold pyGetItem at hg; simp at hg
          | num q' => unfold pyGetItem at hg; simp at hg
          | str s => unfold pyGetItem at hg; simp at hg

theorem clampConf_eq (q : ℚ) : clampConf q = min (max q 0) 1 := by
  unfold clampConf
  split
  · next h => rw [max_eq_left h.1, min_eq_left h.2]
  · rfl

theorem clampConf_mem (q : ℚ) : 0 ≤ clampConf q ∧ clampConf q ≤ 1 := by
  rw [clampConf_eq]
  exact ⟨le_min (le_max_right q 0) zero_le_one, min_le_right _ 1⟩

theorem failResult_shape (r : String) :
    ∃ kvs, failResult r = .obj kvs ∧ kNeighborhood ∈ kvs.map Prod.fst
      ∧ kConfidence ∈ kvs.map Prod.fst ∧ kRationale ∈ kvs.map Prod.fst :=
  ⟨_, rfl, by simp [failResult], by simp [failResult], by simp [failResult]⟩

theorem failResult_conf (r : String) :
    objLookup kConfidence (failResult r) = some (.num 0) := rfl

theorem classify_inner_eq (parseJson : List Char → Except String Json) (text : List Char) :
    classify_inner parseJson text
      = match parseJson (extract_json_text text) with
        | .error m => .ok (failResult ("API parsing error: " ++ m))
        | .ok j =>
          match validate_confidence j with
          | .ok r => .ok r
          | .error e =>
            if innerCaught e then .ok (failResult ("API parsing error: " ++ excMsg e))
            else .error e := by
  unfold classify_inner
  cases parseJson (extract_json_text text) with
  | error m => rfl
  | ok j =>
    cases validate_confidence j with
    | ok r => rfl
    | error e => rfl

theorem classify_inner_ok_shape (parseJson : List Char → Except String Json)
    (text : List Char) (r : Json) (h : classify_inner parseJson text = .ok r) :
    ∃ kvs, r = .obj kvs ∧ kNeighborhood ∈ kvs.map Prod.fst
      ∧ kConfidence ∈ kvs.map Prod.fst ∧ kRationale ∈ kvs.map Prod.fst := by
  rw [classify_inner_eq] at h
  cases hp : parseJson (extract_json_text text) with
  | error m =>
    rw [hp] at h
    dsimp only at h
    injection h with h
    exact h ▸ failResult_shape _
  | ok j =>
    rw [hp] at h
    dsimp only at h
    cases hv : validate_confidence j with
    | ok r' =>
      rw [hv] at h
      dsimp only at h
      injection h with h
      subst h
      obtain ⟨kvs, v, q, hj, hk, _, _, hr⟩ := validate_ok_inv j r' hv
      subst hj
      obtain ⟨h1, h2, h3⟩ := hasKeys_obj_mem kvs hk
      refine ⟨_, hr, ?_, ?_, ?_⟩
      · exact assocSet_keys_mem _ _ _ _ h1
      · exact assocSet_keys_self _ _ _
      · exact assocSet_keys_mem _ _ _ _ h3
    | error e =>
      rw [hv] at h
      dsimp only at h
      cases hic : innerCaught e with
      | true =>
        rw [hic] at h
        rw [if_pos rfl] at h
        injection h with h
        exact h ▸ failResult_shape _
      | false =>
        rw [hic] at h
        rw [if_neg (by simp)] at h
        exact absurd h (by simp)

theorem classify_inner_ok_conf (parseJson : List Char → Except String Json)
    (text : List Char) (r : Json) (h : classify_inner parseJson text = .ok r) :
    ∃ q, objLookup kConfidence r = some (.num q) ∧ 0 ≤ q ∧ q ≤ 1 := by
  rw [classify_inner_eq] at h
  cases hp : parseJson (extract_json_text text) with
  | error m =>
    rw [hp] at h
    dsimp only at h
    injection h with h
    exact ⟨0, h ▸ failResult_conf _, le_refl 0, zero_le_one⟩
  | ok j =>
    rw [hp] at h
    dsimp only at h
    cases hv : validate_confidence j with
    | ok r' =>
      rw [hv] at h
      dsimp only at h
      injection h with h
      subst h
      obtain ⟨kvs, v, q, hj, hk, _, _, hr⟩ := validate_ok_inv j r' hv
      refine ⟨clampConf q, ?_, clampConf_mem q⟩
      rw [hr]
      exact assocSet_lookup_self kvs kConfidence _
    | error e =>
      rw [hv] at h
      dsimp only at h
      cases hic : innerCaught e with
      | true =>
        rw [hic] at h
        rw [if_pos rfl] at h
        injection h with h
        exact ⟨0, h ▸ failResult_conf _, le_refl 0, zero_le_one⟩
      | false =>
        rw [hic] at h
        rw [if_neg (by simp)] at h
        exact absurd h (by simp)

/-- Claim C1, counterexample: the transport succeeds and the response text is
`null`, so `json.loads` succeeds with `None`; the `key in result` validation
then raises `TypeError`, which the inner `except (json.JSONDecodeError,
ValueError)` handler does not catch.  The outer handler reports this
extraction/validation failure with the transport prefix `API error:`, not
with `API parsing error:` — refuting the claimed prefix separation. -/
theorem classify_article_prefix_cx :
    cxTransportNull "" (build_full_content "" "" "") = Transport.ok ("null".toList)
    ∧ classify_article cxTransportNull cxParseNull "" "" "" ""
      = failResult ("API error: argument of type NoneType is not iterable")
    ∧ strLeads ("API parsing error: ")
        ("API error: argument of type NoneType is not iterable") = false :=
  ⟨rfl, rfl, by decide⟩

/-- Claim C1 (amended): `classify_article` always returns a record carrying
the three fields and never raises; a transport failure yields the degraded
result with prefix `API error:`; a `json.loads` failure yields prefix
`API parsing error:`; and a validation failure yields prefix
`API parsing error:` when it raises `ValueError` (missing keys, bad numeric
string) but prefix `API error:` when it raises `TypeError` (non-dict parse
result, non-coercible confidence value). -/
theorem classify_article_failure_taxonomy
    (transport : String → String → Transport)
    (parseJson : List Char → Except String Json)
    (title content tags categories : String) :
    (∃ kvs, classify_article transport parseJson title content tags categories = .obj kvs
        ∧ kNeighborhood ∈ kvs.map Prod.fst ∧ kConfidence ∈ kvs.map Prod.fst
        ∧ kRationale ∈ kvs.map Prod.fst)
    ∧ (∀ m, transport title (build_full_content content tags categories) = .fail m →
        classify_article transport parseJson title content tags categories
          = failResult ("API error: " ++ m))
    ∧ (∀ text m, transport title (build_full_content content tags categories) = .ok text →
        parseJson (extract_json_text text) = .error m →
        classify_article transport parseJson title content tags categories
          = failResult ("API parsing error: " ++ m))
    ∧ (∀ text j e, transport title (build_full_content content tags categories) = .ok text →
        parseJson (extract_json_text text) = .ok j →
        validate_confidence j = .error e →
        classify_article transport parseJson title content tags categories
          = failResult ((if innerCaught e then "API parsing error: " else "API error: ")
              ++ excMsg e)) := by
  refine ⟨?_, ?_, ?_, ?_⟩
  · unfold classify_article
    cases ht : transport title (build_full_content content tags categories) with
    | fail m => exact failResult_shape _
    | ok text =>
      dsimp only
      cases hi : classify_inner parseJson text with
      | ok r => exact classify_inner_ok_shape parseJson text r hi
      | error e => exact failResult_shape _
  · intro m hm
    unfold classify_article
    rw [hm]
  · intro text m ht hp
    unfold classify_article
    rw [ht]
    dsimp only
    rw [classify_inner_eq, hp]
  · intro text j e ht hp hv
    unfold classify_article
    rw [ht]
    dsimp only
    rw [classify_inner_eq, hp]
    dsimp only
    rw [hv]
    dsimp only
    cases hic : innerCaught e with
    | true => rw [if_pos rfl, if_pos rfl]
    | false => rw [if_neg (by simp), if_neg (by simp)]

/-- Claim C1, witness for the amended theorem at a concrete input: the
`TypeError` validation failure carries the `API error:` prefix. -/
theorem classify_article_failure_taxonomy_w :
    classify_article cxTransportNull cxParseNull "" "" "" ""
      = failResult
          ((if innerCaught (PyExc.typeError "argument of type NoneType is not iterable")
              then "API parsing error: " else "API error: ")
            ++ excMsg (PyExc.typeError "argument of type NoneType is not iterable")) :=
  (classify_article_failure_taxonomy cxTransportNull cxParseNull "" "" "" "").2.2.2
    ("null".toList) Json.null _ rfl rfl rfl

/-- The finite (ℚ-valued) fragment of the confidence analysis: a confidence
value that coerces to the number `q` is stored as exactly `min (max q 0) 1`,
and every `Json.num` confidence a result of `classify_article` carries —
success or failure path — lies in the interval `[0, 1]`.  Over the NaN-aware
domain this interval invariant fails; see `confidence_clamped_or_nan`. -/
theorem confidence_clamped
    (transport : String → String → Transport)
    (parseJson : List Char → Except String Json)
    (title content tags categories : String) :
    (∀ text j v q r,
      transport title (build_full_content content tags categories) = .ok text →
      parseJson (extract_json_text text) = .ok j →
      pyGetItem j kConfidence = .ok v →
      pyFloat v = .ok q →
      validate_confidence j = .ok r →
      classify_article transport parseJson title content tags categories = r
        ∧ objLookup kConfidence r = some (.num (min (max q 0) 1)))
    ∧ (∃ q, objLookup kConfidence
          (classify_article transport parseJson title content tags categories)
        = some (.num q) ∧ 0 ≤ q ∧ q ≤ 1) := by
  constructor
  · intro text j v q r ht hp hg hf hv
    constructor
    · unfold classify_article
      rw [ht]
      dsimp only
      rw [classify_inner_eq, hp]
      dsimp only
      rw [hv]
    · obtain ⟨kvs, v', q', hj, hk, hl, hf', hr⟩ := validate_ok_inv j r hv
      subst hj
      have hv' : v' = v := by
        unfold pyGetItem at hg
        dsimp only at hg
        rw [hl] at hg
        injection hg
      subst hv'
      have hq : q' = q := by
        have h2 := hf'.symm.trans hf
        injection h2
      rw [hr, hq]
      show (assocSet kvs kConfidence (.num (clampConf q))).lookup kConfidence = _
      rw [assocSet_lookup_self, clampConf_eq]
  · unfold classify_article
    cases ht : transport title (build_full_content content tags categories) with
    | fail m => exact ⟨0, failResult_conf _, le_refl 0, zero_le_one⟩
    | ok text =>
      dsimp only
      cases hi : classify_inner parseJson text with
      | ok r => exact classify_inner_ok_conf parseJson text r hi
      | error e => exact ⟨0, failResult_conf _, le_refl 0, zero_le_one⟩

/-- Concrete instance of the finite fragment: the out-of-range confidence
1.7 of `goodObj` is stored as `min (max 1.7 0) 1 = 1`. -/
theorem confidence_clamped_w :
    classify_article cxTransportX (cxParseConst goodObj) "" "" "" ""
        = jsonSetKey goodObj kConfidence (.num (clampConf (17 / 10)))
    ∧ objLookup kConfidence (jsonSetKey goodObj kConfidence (.num (clampConf (17 / 10))))
        = some (.num (min (max (17 / 10 : ℚ) 0) 1)) :=
  (confidence_clamped cxTransportX (cxParseConst goodObj) "" "" "" "").1
    ("x".toList) goodObj (.num (17 / 10)) (17 / 10)
    (jsonSetKey goodObj kConfidence (.num (clampConf (17 / 10)))) rfl rfl rfl rfl rfl

/-- `clampConfPy` restricted to the finite values is exactly the `ℚ`-valued
clamp of lines 150-154. -/
theorem clampConfPy_fin (q : ℚ) : clampConfPy (.fin q) = .fin (clampConf q) := by
  have e1 : pyLeF (.fin 0) (.fin q) = decide (0 ≤ q) := rfl
  have e2 : pyLeF (.fin q) (.fin 1) = decide (q ≤ 1) := rfl
  have e3 : pyLtF (.fin q) (.fin 0) = decide (q < 0) := rfl
  have e4 : ∀ x : PyFloat, pyLtF (.fin 1) x
      = (match x with | .fin b => decide ((1 : ℚ) < b) | .nan => false) := by
    intro x
    cases x <;> rfl
  unfold clampConfPy clampConf pyMinF pyMaxF
  rw [e1, e2, e3]
  by_cases h0 : 0 ≤ q
  · by_cases h1 : q ≤ 1
    · simp [h0, h1]
    · have hq1 : 1 < q := lt_of_not_le h1
      simp [h0, h1, not_lt.mpr h0, hq1, e4, max_eq_left h0, min_eq_right hq1.le]
  · have hq0 : q < 0 := lt_of_not_le h0
    have hns : ¬ (1 : ℚ) < 0 := by norm_num
    simp [h0, hq0, hns, e4, max_eq_right hq0.le,
      min_eq_left (show (0 : ℚ) ≤ 1 by norm_num)]

/-- Claim C2, counterexample: `json.loads` accepts the JSON literal `NaN` by
default and yields the float NaN, `float(nan)` succeeds, NaN fails the range
test of line 150, and the clamp `min(max(NaN, 0.0), 1.0)` of line 152
evaluates to NaN again — every comparison against NaN is false, so `max` and
then `min` keep their first argument.  The stored confidence is NaN, which
lies outside `[0, 1]`: both bound checks are false.  (`Json.num` carries `ℚ`
and cannot represent this value, which is why the statement lives in the
`PyFloat` refinement of the confidence domain.) -/
theorem confidence_nan_cx :
    clampConfPy PyFloat.nan = PyFloat.nan
    ∧ pyLeF (.fin 0) (clampConfPy PyFloat.nan) = false
    ∧ pyLeF (clampConfPy PyFloat.nan) (.fin 1) = false := by
  exact ⟨rfl, rfl, rfl⟩

/-- Claim C2 (amended): a confidence that coerces to the finite number `q` is
stored as exactly `min (max q 0) 1`, which lies in `[0, 1]`, and every
`Json.num` confidence in a `classify_article` result is in `[0, 1]`; the
NaN-aware clamp agrees with the `ℚ`-valued one on every finite value; but a
confidence of NaN — produced by `json.loads` for the default-enabled literal
`NaN` and passed through by `float()` — survives lines 150-154 unchanged and
lies outside `[0, 1]`, so the interval invariant holds only for non-NaN
confidences. -/
theorem confidence_clamped_or_nan
    (transport : String → String → Transport)
    (parseJson : List Char → Except String Json)
    (title content tags categories : String) :
    ((∀ text j v q r,
      transport title (build_full_content content tags categories) = .ok text →
      parseJson (extract_json_text text) = .ok j →
      pyGetItem j kConfidence = .ok v →
      pyFloat v = .ok q →
      validate_confidence j = .ok r →
      classify_article transport parseJson title content tags categories = r
        ∧ objLookup kConfidence r = some (.num (min (max q 0) 1)))
    ∧ (∃ q, objLookup kConfidence
          (classify_article transport parseJson title content tags categories)
        = some (.num q) ∧ 0 ≤ q ∧ q ≤ 1))
    ∧ (∀ q : ℚ, clampConfPy (.fin q) = .fin (clampConf q))
    ∧ (clampConfPy PyFloat.nan = PyFloat.nan
        ∧ pyLeF (.fin 0) (clampConfPy PyFloat.nan) = false
        ∧ pyLeF (clampConfPy PyFloat.nan) (.fin 1) = false) :=
  ⟨confidence_clamped transport parseJson title content tags categories,
   clampConfPy_fin, rfl, rfl, rfl⟩

/-- Claim C2, witness for the amended theorem at a concrete input: the
out-of-range finite confidence 1.7 of `goodObj` is stored as
`min (max 1.7 0) 1`, and the NaN-aware clamp agrees with the `ℚ`-valued one
there. -/
theorem confidence_clamped_or_nan_w :
    (classify_article cxTransportX (cxParseConst goodObj) "" "" "" ""
        = jsonSetKey goodObj kConfidence (.num (clampConf (17 / 10)))
      ∧ objLookup kConfidence (jsonSetKey goodObj kConfidence (.num (clampConf (17 / 10))))
        = some (.num (min (max (17 / 10 : ℚ) 0) 1)))
    ∧ clampConfPy (.fin (17 / 10)) = .fin (clampConf (17 / 10)) :=
  ⟨(confidence_clamped_or_nan cxTransportX (cxParseConst goodObj) "" "" "" "").1.1
      ("x".toList) goodObj (.num (17 / 10)) (17 / 10)
      (jsonSetKey goodObj kConfidence (.num (clampConf (17 / 10)))) rfl rfl rfl rfl rfl,
   (confidence_clamped_or_nan cxTransportX (cxParseConst goodObj) "" "" "" "").2.1 (17 / 10)⟩

/-- Claim C9, counterexample: a response that parses successfully and has the
three required keys, but whose confidence is the non-numeric string `abc`.
`classify_article` does not return the parsed object: it degrades to the
`unknown` failure record. -/
theorem classify_article_not_whole_object_cx :
    cxParseConst badConfObj (extract_json_text ("x".toList)) = Except.ok badConfObj
    ∧ hasKeysCheck badConfObj = .ok true
    ∧ classify_article cxTransportX (cxParseConst badConfObj) "" "" "" "" ≠ badConfObj
    ∧ objLookup kNeighborhood
        (classify_article cxTransportX (cxParseConst badConfObj) "" "" "" "")
      = some (.str "unknown") :=
  ⟨rfl, rfl, by decide, rfl⟩

/-- Claim C9 (amended): when the response parses to an object `j` that has
the three required keys and whose confidence value coerces to a number,
`classify_article` returns `j` itself with only the confidence entry
replaced by the clamped coercion: the key list is unchanged, every other
key keeps its value, and the whole object is merged into the output row by
`dict.update` (for dicts with distinct keys, as Python dicts are). -/
theorem classify_preserves_whole_object
    (transport : String → String → Transport)
    (parseJson : List Char → Except String Json)
    (title content tags categories : String)
    (text : List Char) (j v : Json) (q : ℚ)
    (ht : transport title (build_full_content content tags categories) = .ok text)
    (hp : parseJson (extract_json_text text) = .ok j)
    (hk : hasKeysCheck j = .ok true)
    (hg : pyGetItem j kConfidence = .ok v)
    (hf : pyFloat v = .ok q)
    (hnd : (objKeys j).Nodup) :
    classify_article transport parseJson title content tags categories
        = jsonSetKey j kConfidence (.num (clampConf q))
    ∧ objKeys (classify_article transport parseJson title content tags categories) = objKeys j
    ∧ (∀ k, k ≠ kConfidence →
        objLookup k (classify_article transport parseJson title content tags categories)
          = objLookup k j)
    ∧ (∀ (item : List (String × Json)) k, k ∈ objKeys j →
        (pyDictUpdate item
            (objFields (classify_article transport parseJson title content tags categories))).lookup k
          = objLookup k
              (classify_article transport parseJson title content tags categories)) := by
  have hval : validate_confidence j = .ok (jsonSetKey j kConfidence (.num (clampConf q))) := by
    unfold validate_confidence
    rw [hk]
    dsimp only
    rw [hg]
    dsimp only
    rw [hf]
  have hc : classify_article transport parseJson title content tags categories
      = jsonSetKey j kConfidence (.num (clampConf q)) := by
    unfold classify_article
    rw [ht]
    dsimp only
    rw [classify_inner_eq, hp]
    dsimp only
    rw [hval]
  obtain ⟨kvs, hj⟩ : ∃ kvs, j = .obj kvs := by
    cases j with
    | obj kvs => exact ⟨kvs, rfl⟩
    | null => unfold pyGetItem at hg; simp at hg
    | bool b => unfold pyGetItem at hg; simp at hg
    | num q' => unfold pyGetItem at hg; simp at hg
    | str s => unfold pyGetItem at hg; simp at hg
  subst hj
  have hkc : kConfidence ∈ kvs.map Prod.fst := (hasKeys_obj_mem kvs hk).2.1
  have hkeys : (assocSet kvs kConfidence (.num (clampConf q))).map Prod.fst
      = kvs.map Prod.fst := assocSet_keys_of_mem _ _ _ hkc
  refine ⟨hc, ?_, ?_, ?_⟩
  · rw [hc]
    exact hkeys
  · intro k hkne
    rw [hc]
    exact assocSet_lookup_other _ _ _ _ hkne
  · intro item k hmem
    rw [hc]
    show (pyDictUpdate item (assocSet kvs kConfidence (.num (clampConf q)))).lookup k
      = (assocSet kvs kConfidence (.num (clampConf q))).lookup k
    apply pyDictUpdate_lookup_mem
    · rw [hkeys]
      exact hnd
    · rw [hkeys]
      exact hmem

/-- Claim C9, witness for the amended theorem: the extra key of `goodObj`
survives classification with its value intact. -/
theorem classify_preserves_whole_object_w :
    objLookup "extra" (classify_article cxTransportX (cxParseConst goodObj) "" "" "" "")
      = objLookup "extra" goodObj :=
  (classify_preserves_whole_object cxTransportX (cxParseConst goodObj) "" "" "" ""
    ("x".toList) goodObj (.num (17 / 10)) (17 / 10) rfl rfl rfl rfl rfl
    (by decide)).2.2.1 ("extra") (by decide)

theorem storeSet_lookup_self (l : List (String × Option (List Char))) (p : String)
    (c : Option (List Char)) : (storeSet l p c).lookup p = some c := by
  induction l with
  | nil => simp [storeSet, List.lookup]
  | cons kv rest ih =>
    obtain ⟨p', c'⟩ := kv
    by_cases h : p' = p
    · simp [storeSet, h, List.lookup]
    · have hb : (p == p') = false := beq_eq_false_iff_ne.mpr (fun he => h he.symm)
      simp [storeSet, h, List.lookup, hb, ih]

theorem storeSet_lookup_other (l : List (String × Option (List Char))) (p : String)
    (c : Option (List Char)) (p' : String) (h : p' ≠ p) :
    (storeSet l p c).lookup p' = l.lookup p' := by
  induction l with
  | nil =>
    have hb : (p' == p) = false := beq_eq_false_iff_ne.mpr h
    simp [storeSet, List.lookup, hb]
  | cons kv rest ih =>
    obtain ⟨p0, c0⟩ := kv
    by_cases h0 : p0 = p
    · subst h0
      have hb : (p' == p0) = false := beq_eq_false_iff_ne.mpr h
      simp [storeSet, List.lookup, hb]
    · simp only [storeSet, if_neg h0]
      by_cases h1 : p' = p0
      · have hb : (p' == p0) = true := beq_iff_eq.mpr h1
        simp [List.lookup, hb]
      · have hb : (p' == p0) = false := beq_eq_false_iff_ne.mpr h1
        simp [List.lookup, hb, ih]

/-! ## CSV round-trip lemmas -/
theorem needsQuote_cons (c : Char) (f : List Char) :
    needsQuote (c :: f) = (csvSpecial c || needsQuote f) := by
  simp [needsQuote]

theorem csvSpecial_false (c : Char) (h : csvSpecial c = false) :
    c ≠ ',' ∧ c ≠ '"' ∧ c ≠ '\r' ∧ c ≠ '\n' := by
  simp only [csvSpecial, Bool.or_eq_false_iff, beq_eq_false_iff_ne] at h
  exact ⟨h.1.1.1, h.1.1.2, h.1.2, h.2⟩

theorem readUnquoted_append (f : List Char) (rest : List Char) (h : needsQuote f = false) :
    readUnquoted (f ++ rest)
      = (f ++ (readUnquoted rest).1, (readUnquoted rest).2.1, (readUnquoted rest).2.2) := by
  induction f with
  | nil => simp
  | cons c f' ih =>
    rw [needsQuote_cons, Bool.or_eq_false_iff] at h
    obtain ⟨h1, h2, h3, h4⟩ := csvSpecial_false c h.1
    rw [List.cons_append, readUnquoted.eq_def]
    dsimp only
    rw [if_neg h1, if_neg h3, if_neg h4, ih h.2]
    simp

theorem readQuoted_escBody (f : List Char) (rest : List Char)
    (hrest : rest.head? ≠ some '"') :
    readQuoted (escBody f ++ '"' :: rest)
      = (f ++ (readUnquoted rest).1, (readUnquoted rest).2.1, (readUnquoted rest).2.2) := by
  induction f with
  | nil =>
    rw [escBody, List.nil_append, readQuoted.eq_def]
    dsimp only
    rw [if_pos rfl]
    cases rest with
    | nil => simp [readUnquoted]
    | cons c2 r2 =>
      have h2 : c2 ≠ '"' := by
        intro he
        exact hrest (by simp [he])
      dsimp only
      rw [if_neg h2]
      simp
  | cons c f' ih =>
    by_cases hc : c = '"'
    · subst hc
      simp only [escBody]
      rw [if_pos trivial, List.cons_append, List.cons_append, readQuoted.eq_def]
      dsimp only
      rw [if_pos rfl, if_pos rfl, ih]
      simp
    · simp only [escBody]
      rw [if_neg hc, List.cons_append, readQuoted.eq_def]
      dsimp only
      rw [if_neg hc, ih]
      simp

theorem readUnquoted_crlf (r : List Char) :
    readUnquoted ('\r' :: '\n' :: r) = ([], .newline, r) := by
  rw [readUnquoted.eq_def]
  dsimp only
  rw [if_neg (by decide), if_pos rfl]
  simp

theorem delim_readUnquoted (rest : List Char) (h : delimShape rest) :
    (readUnquoted rest).1 = [] := by
  rcases h with rfl | ⟨r, rfl⟩ | ⟨r, rfl⟩
  · rfl
  · simp [readUnquoted]
  · rw [readUnquoted_crlf]

theorem delim_head_ne (rest : List Char) (h : delimShape rest) :
    rest.head? ≠ some '"' := by
  rcases h with rfl | ⟨r, rfl⟩ | ⟨r, rfl⟩ <;> simp

theorem readField_escape (f : List Char) (rest : List Char) (h : delimShape rest) :
    readField (escapeField f ++ rest)
      = (f, (readUnquoted rest).2.1, (readUnquoted rest).2.2) := by
  by_cases hq : needsQuote f
  · unfold escapeField
    rw [if_pos hq, List.cons_append, readField.eq_def]
    dsimp only
    rw [if_pos rfl, List.append_assoc]
    rw [show ['"'] ++ rest = '"' :: rest from rfl]
    rw [readQuoted_escBody f rest (delim_head_ne rest h)]
    rw [delim_readUnquoted rest h, List.append_nil]
  · have hq' : needsQuote f = false := by simpa using hq
    unfold escapeField
    rw [if_neg hq]
    cases f with
    | nil =>
      rw [List.nil_append]
      rcases h with rfl | ⟨r, rfl⟩ | ⟨r, rfl⟩
      · rfl
      · simp [readField, readUnquoted]
      · rw [readField.eq_def]
        dsimp only
        rw [if_neg (by decide), readUnquoted_crlf]
    | cons c f' =>
      rw [needsQuote_cons, Bool.or_eq_false_iff] at hq'
      obtain ⟨h1, h2, h3, h4⟩ := csvSpecial_false c hq'.1
      rw [List.cons_append, readField.eq_def]
      dsimp only
      rw [if_neg h2, ← List.cons_append]
      rw [readUnquoted_append (c :: f') rest (by rw [needsQuote_cons, hq'.2]; simpa using hq'.1)]
      rw [delim_readUnquoted rest h, List.append_nil]

theorem joinComma_loop : ∀ (fs : List (List Char)) (fuel : ℕ) (rest : List Char),
    fs ≠ [] → fs.length ≤ fuel →
    readFieldsLoop fuel (joinComma fs ++ '\r' :: '\n' :: rest) = (fs, rest)
  | [], _, _ => by intro h _; exact absurd rfl h
  | [f], fuel, rest => by
    intro _ hfuel
    have h1 : 1 ≤ fuel := by simpa using hfuel
    obtain ⟨fuel', rfl⟩ : ∃ m, fuel = m + 1 := ⟨fuel - 1, by omega⟩
    have hfield := readField_escape f ('\r' :: '\n' :: rest) (Or.inr (Or.inr ⟨rest, rfl⟩))
    rw [readUnquoted_crlf] at hfield
    show readFieldsLoop (fuel' + 1) (escapeField f ++ '\r' :: '\n' :: rest) = _
    rw [readFieldsLoop, hfield]
  | f :: f2 :: fr, fuel, rest => by
    intro _ hfuel
    have h1 : 1 ≤ fuel := by simp at hfuel; omega
    obtain ⟨fuel', rfl⟩ : ∃ m, fuel = m + 1 := ⟨fuel - 1, by omega⟩
    have hfield := readField_escape f (',' :: (joinComma (f2 :: fr) ++ '\r' :: '\n' :: rest))
      (Or.inr (Or.inl ⟨_, rfl⟩))
    have hu : readUnquoted (',' :: (joinComma (f2 :: fr) ++ '\r' :: '\n' :: rest))
        = ([], .comma, joinComma (f2 :: fr) ++ '\r' :: '\n' :: rest) := by
      simp [readUnquoted]
    rw [hu] at hfield
    show readFieldsLoop (fuel' + 1)
        ((escapeField f ++ ',' :: joinComma (f2 :: fr)) ++ '\r' :: '\n' :: rest) = _
    rw [show (escapeField f ++ ',' :: joinComma (f2 :: fr)) ++ '\r' :: '\n' :: rest
        = escapeField f ++ (',' :: (joinComma (f2 :: fr) ++ '\r' :: '\n' :: rest)) by
      simp]
    rw [readFieldsLoop, hfield]
    dsimp only
    rw [joinComma_loop (f2 :: fr) fuel' rest (by simp)
      (by simp at hfuel ⊢; omega)]

theorem joinComma_length : ∀ fs : List (List Char), fs ≠ [] →
    fs.length ≤ (joinComma fs).length + 1
  | [], h => absurd rfl h
  | [f], _ => by simp [joinComma]
  | f :: f2 :: fr, _ => by
    have ih := joinComma_length (f2 :: fr) (by simp)
    simp only [joinComma, List.length_append, List.length_cons] at ih ⊢
    omega

theorem escapeField_head (c : Char) (f' : List Char) :
    ∃ d t, escapeField (c :: f') = d :: t ∧ d ≠ '\r' ∧ d ≠ '\n' := by
  by_cases hq : needsQuote (c :: f')
  · refine ⟨'"', escBody (c :: f') ++ ['"'], ?_, by decide, by decide⟩
    unfold escapeField
    rw [if_pos hq]
  · have hq' : needsQuote (c :: f') = false := by simpa using hq
    rw [needsQuote_cons, Bool.or_eq_false_iff] at hq'
    obtain ⟨_, _, h3, h4⟩ := csvSpecial_false c hq'.1
    refine ⟨c, f', ?_, h3, h4⟩
    unfold escapeField
    rw [if_neg hq]

theorem joinComma_head (f : List Char) (fs : List (List Char))
    (hne : f :: fs ≠ [[]]) :
    ∃ c t, joinComma (f :: fs) = c :: t ∧ c ≠ '\r' ∧ c ≠ '\n' := by
  cases fs with
  | nil =>
    cases f with
    | nil => exact absurd rfl hne
    | cons c f' =>
      obtain ⟨d, t, he, h1, h2⟩ := escapeField_head c f'
      exact ⟨d, t, by simpa [joinComma] using he, h1, h2⟩
  | cons g gs =>
    cases f with
    | nil =>
      refine ⟨',', joinComma (g :: gs), ?_, by decide, by decide⟩
      show escapeField [] ++ ',' :: joinComma (g :: gs) = _
      rfl
    | cons c f' =>
      obtain ⟨d, t, he, h1, h2⟩ := escapeField_head c f'
      refine ⟨d, t ++ ',' :: joinComma (g :: gs), ?_, h1, h2⟩
      show escapeField (c :: f') ++ ',' :: joinComma (g :: gs) = _
      rw [he]
      rfl

theorem readRecord_encode (r : List (List Char)) (rest : List Char) (hr : r ≠ []) :
    readRecord (encodeRecord r ++ '\r' :: '\n' :: rest) = (r, rest) := by
  by_cases hsp : r = [[]]
  · subst hsp
    show readRecord ('"' :: '"' :: '\r' :: '\n' :: rest) = ([[]], rest)
    have hf : readField ('"' :: '"' :: '\r' :: '\n' :: rest) = ([], .newline, rest) := by
      rw [readField.eq_def]
      dsimp only
      rw [if_pos rfl, readQuoted.eq_def]
      dsimp only
      rw [if_pos rfl]
      rw [if_neg (by decide), readUnquoted_crlf]
    rw [readRecord]
    rw [if_neg (by decide), if_neg (by decide)]
    rw [show ('"' :: '"' :: '\r' :: '\n' :: rest).length + 1 = (rest.length + 4) + 1 by
      simp]
    rw [readFieldsLoop, hf]
  · obtain ⟨f, fs, rfl⟩ : ∃ f fs, r = f :: fs := by
      cases r with
      | nil => exact absurd rfl hr
      | cons f fs => exact ⟨f, fs, rfl⟩
    have henc : encodeRecord (f :: fs) = joinComma (f :: fs) := by
      cases f with
      | nil =>
        cases fs with
        | nil => exact absurd rfl hsp
        | cons g gs => rfl
      | cons c f' => rfl
    obtain ⟨c, t, hj, hc1, hc2⟩ := joinComma_head f fs hsp
    have hlen : (f :: fs).length ≤ (c :: (t ++ '\r' :: '\n' :: rest)).length + 1 := by
      have := joinComma_length (f :: fs) (by simp)
      rw [hj] at this
      simp only [List.length_cons, List.length_append] at this ⊢
      omega
    rw [henc, hj, List.cons_append, readRecord]
    rw [if_neg hc1, if_neg hc2]
    have hback : c :: (t ++ '\r' :: '\n' :: rest) = joinComma (f :: fs) ++ '\r' :: '\n' :: rest := by
      rw [hj]
      rfl
    rw [hback]
    rw [joinComma_loop (f :: fs) _ rest (by simp)]
    rw [← hback]
    simpa using hlen

theorem encodeRecords_length : ∀ rs : List (List (List Char)),
    rs.length ≤ (encodeRecords rs).length
  | [] => by simp [encodeRecords]
  | r :: rest => by
    simp only [encodeRecords, List.length_append, List.length_cons]
    have := encodeRecords_length rest
    omega

theorem readRecords_encode : ∀ (rs : List (List (List Char))) (fuel : ℕ),
    (∀ r ∈ rs, r ≠ []) → rs.length ≤ fuel →
    readRecords fuel (encodeRecords rs) = rs
  | [], fuel => by
    intro _ _
    cases fuel <;> simp [readRecords, encodeRecords]
  | r :: rest, fuel => by
    intro hne hf
    simp only [List.length_cons] at hf
    obtain ⟨fuel', rfl⟩ : ∃ m, fuel = m + 1 := ⟨fuel - 1, by omega⟩
    rw [encodeRecords, readRecords]
    rw [if_neg (by simp)]
    rw [readRecord_encode r _ (hne r (by simp))]
    dsimp only
    rw [readRecords_encode rest fuel' (fun x hx => hne x (by simp [hx])) (by omega)]

theorem csvParse_encode (rs : List (List (List Char))) (hne : ∀ r ∈ rs, r ≠ []) :
    csvParse (encodeRecords rs) = rs := by
  unfold csvParse
  exact readRecords_encode rs _ hne (by have := encodeRecords_length rs; omega)

/-! ## DictReader reconstruction lemmas -/
theorem assocSet_not_mem (l : List (String × Json)) (k : String) (v : Json)
    (h : k ∉ l.map Prod.fst) : assocSet l k v = l ++ [(k, v)] := by
  induction l with
  | nil => rfl
  | cons kv rest ih =>
    obtain ⟨k0, v0⟩ := kv
    simp only [List.map_cons, List.mem_cons, not_or] at h
    simp only [assocSet, if_neg (fun he : k0 = k => h.1 he.symm), List.cons_append]
    rw [ih h.2]

theorem foldl_assocSet : ∀ (ps : List (String × Json)) (acc : List (String × Json)),
    (∀ k ∈ ps.map Prod.fst, k ∉ acc.map Prod.fst) → (ps.map Prod.fst).Nodup →
    ps.foldl (fun d kv => assocSet d kv.1 kv.2) acc = acc ++ ps
  | [], acc => by simp
  | (k, v) :: rest, acc => by
    intro hdis hnd
    simp only [List.map_cons, List.nodup_cons] at hnd
    simp only [List.foldl_cons]
    rw [assocSet_not_mem acc k v (hdis k (by simp))]
    rw [foldl_assocSet rest (acc ++ [(k, v)]) ?_ hnd.2]
    · simp
    · intro k' hk'
      simp only [List.map_append, List.mem_append, List.map_cons, List.map_nil,
        List.mem_singleton, not_or]
      refine ⟨hdis k' (by simp [hk']), ?_⟩
      intro he
      exact hnd.1 (he ▸ hk')

theorem dictOfPairs_nodup (ps : List (String × Json)) (h : (ps.map Prod.fst).Nodup) :
    dictOfPairs ps = ps := by
  unfold dictOfPairs
  rw [foldl_assocSet ps [] (by simp) h]
  simp

theorem zipHdr_map (g : String → Json) : ∀ hdr : List String,
    zipHdr hdr (hdr.map g) = hdr.map (fun h => (h, g h))
  | [] => rfl
  | h :: hs => by
    simp only [List.map_cons, zipHdr]
    rw [zipHdr_map g hs]

theorem mk_toList (s : String) : String.mk s.toList = s := rfl

theorem encodeRowsPartial_all (fieldnames : List String) :
    ∀ results : List (List (String × Json)),
    (∀ row ∈ results, rowExtraOk fieldnames row = true) →
    encodeRowsPartial fieldnames results = (results.map (rowCells fieldnames), true)
  | [] => by intro _; rfl
  | row :: rest => by
    intro h
    simp only [encodeRowsPartial, if_pos (h row (by simp))]
    rw [encodeRowsPartial_all fieldnames rest (fun x hx => h x (by simp [hx]))]
    simp

theorem dictRowOf_cells (fieldnames : List String) (row : List (String × Json))
    (hnd : fieldnames.Nodup) :
    dictRowOf (fieldnames.map String.toList |>.map String.mk) (rowCells fieldnames row)
      = normalizeRow fieldnames row := by
  have hmk : (fieldnames.map String.toList).map String.mk = fieldnames := by
    rw [List.map_map]
    rw [show String.mk ∘ String.toList = id from funext fun s => rfl]
    exact List.map_id fieldnames
  rw [hmk]
  unfold dictRowOf rowCells normalizeRow
  rw [List.map_map]
  rw [show ((fun f => Json.str (String.mk f)) ∘ fun fn =>
      match row.lookup fn with
      | some v => (csvCellStr v).toList
      | none => [])
    = fun fn => Json.str (csvCellStr ((row.lookup fn).getD Json.null)) from ?_]
  · rw [zipHdr_map]
    apply dictOfPairs_nodup
    rw [show (fieldnames.map fun h => (h, Json.str (csvCellStr ((row.lookup h).getD Json.null)))).map Prod.fst = fieldnames from ?_]
    · exact hnd
    · rw [List.map_map]
      rw [show (Prod.fst ∘ fun h : String =>
          (h, Json.str (csvCellStr ((row.lookup h).getD Json.null)))) = id from
        funext fun h => rfl]
      exact List.map_id fieldnames
  · funext fn
    cases hl : row.lookup fn with
    | some v =>
      dsimp only [Function.comp]
      rw [hl]
      rfl
    | none =>
      dsimp only [Function.comp]
      rw [hl]
      rfl

theorem normalizeRow_lookup (fieldnames : List String) (row : List (String × Json))
    (k : String) (hk : k ∈ fieldnames) :
    (normalizeRow fieldnames row).lookup k
      = some (Json.str (csvCellStr ((row.lookup k).getD Json.null))) := by
  induction fieldnames with
  | nil => simp at hk
  | cons fn rest ih =>
    simp only [normalizeRow, List.map_cons, List.lookup]
    by_cases he : k = fn
    · subst he
      simp
    · have hb : (k == fn) = false := beq_eq_false_iff_ne.mpr he
      rw [hb]
      simp only [List.mem_cons] at hk
      exact ih (hk.resolve_left he)

theorem lookup_isSome_of_mem_keys : ∀ (l : List (String × Json)) (k : String),
    k ∈ l.map Prod.fst → ∃ v, l.lookup k = some v
  | [], k => by simp
  | (k0, v0) :: rest, k => by
    intro hk
    by_cases he : k = k0
    · exact ⟨v0, by simp [List.lookup, beq_iff_eq.mpr he]⟩
    · simp only [List.map_cons, List.mem_cons] at hk
      obtain ⟨v, hv⟩ := lookup_isSome_of_mem_keys rest k (hk.resolve_left he)
      exact ⟨v, by simp [List.lookup, beq_eq_false_iff_ne.mpr he, hv]⟩

/-- Claim C6 (amended): saving a nonempty row list whose rows share the first
row's (nonempty) key set and then loading reconstructs one row per saved row,
with the same identifiers and with every field value replaced by its CSV
string serialization — so exactly the original values whenever they were
strings (the CSV layer is stringly typed; a non-string value comes back as
its string form). -/
theorem save_load_round_trip
    (fs : FS) (output_file : String)
    (r0 : List (String × Json)) (rs : List (List (String × Json)))
    (hnd : (rowKeys r0).Nodup)
    (hfn : rowKeys r0 ≠ [])
    (hkeys : ∀ row ∈ r0 :: rs, ∀ k, k ∈ rowKeys row ↔ k ∈ rowKeys r0)
    (hw : (output_file ++ ".tmp") ∉ fs.badWrite) :
    (load_existing_progress (save_progress fs output_file (r0 :: rs)) output_file).2.1
      = (r0 :: rs).map (normalizeRow (rowKeys r0))
    ∧ (∀ row ∈ r0 :: rs, ∀ k, k ∈ rowKeys r0 →
        (normalizeRow (rowKeys r0) row).lookup k
          = (row.lookup k).map (fun v => Json.str (csvCellStr v)))
    ∧ (∀ row ∈ r0 :: rs, ∀ k s, k ∈ rowKeys r0 → row.lookup k = some (.str s) →
        (normalizeRow (rowKeys r0) row).lookup k = some (.str s)) := by
  have hextra : ∀ row ∈ r0 :: rs, rowExtraOk (rowKeys r0) row = true := by
    intro row hrow
    unfold rowExtraOk
    rw [List.all_eq_true]
    intro kv hkv
    have : kv.1 ∈ rowKeys row := List.mem_map.mpr ⟨kv, hkv, rfl⟩
    have hm := (hkeys row hrow kv.1).mp this
    exact List.elem_eq_true_of_mem hm
  have hsave : save_progress fs output_file (r0 :: rs)
      = ⟨storeSet fs.files (output_file ++ ".tmp")
          (some (encodeRecords
            (((rowKeys r0).map String.toList) :: (r0 :: rs).map (rowCells (rowKeys r0))))),
          fs.badWrite⟩ := by
    unfold save_progress
    dsimp only
    rw [if_neg hw]
    rw [encodeRowsPartial_all (rowKeys r0) (r0 :: rs) hextra]
  have hparse : csvParse (encodeRecords
      (((rowKeys r0).map String.toList) :: (r0 :: rs).map (rowCells (rowKeys r0))))
      = ((rowKeys r0).map String.toList) :: (r0 :: rs).map (rowCells (rowKeys r0)) := by
    apply csvParse_encode
    intro rec hrec
    simp only [List.mem_cons, List.mem_map] at hrec
    rcases hrec with rfl | ⟨row, _, rfl⟩
    · simpa using hfn
    · unfold rowCells
      simpa using hfn
  have hload : (load_existing_progress (save_progress fs output_file (r0 :: rs))
      output_file).2.1
      = (r0 :: rs).map (normalizeRow (rowKeys r0)) := by
    rw [hsave]
    unfold load_existing_progress
    dsimp only
    rw [storeSet_lookup_self]
    dsimp only
    rw [hparse]
    unfold dictRows
    dsimp only
    rw [List.filter_eq_self.mpr ?_]
    · rw [List.map_map]
      apply List.map_congr_left
      intro row hrow
      exact dictRowOf_cells (rowKeys r0) row hnd
    · intro rec hrec
      simp only [List.mem_map] at hrec
      obtain ⟨row, _, rfl⟩ := hrec
      unfold rowCells
      simpa using hfn
  refine ⟨hload, ?_, ?_⟩
  · intro row hrow k hk
    rw [normalizeRow_lookup (rowKeys r0) row k hk]
    obtain ⟨v, hv⟩ := lookup_isSome_of_mem_keys row k ((hkeys row hrow k).mpr hk)
    rw [hv]
    rfl
  · intro row hrow k s hk hs
    rw [normalizeRow_lookup (rowKeys r0) row k hk, hs]
    rfl

/-- Claim C6, counterexample: a row with the float value `0.0` comes back
from the save/load round trip as the string `0.0` — the identifiers agree
but the field values do not. -/
theorem save_load_cx :
    (load_existing_progress (save_progress fsEmpty outName cxNumRows) outName).2.1
      = [[(kId, Json.str "a"), ("n", Json.str "0.0")]]
    ∧ (load_existing_progress (save_progress fsEmpty outName cxNumRows) outName).2.1
      ≠ cxNumRows := by
  constructor
  · decide
  · decide

/-- Claim C6, witness for the amended round-trip theorem: string-valued rows
(with a value that needs CSV quoting) survive exactly. -/
theorem save_load_round_trip_w :
    (load_existing_progress (save_progress fsEmpty outName
        [[(kId, Json.str "a"), ("v", Json.str "x,\"y\"")]]) outName).2.1
      = [[(kId, Json.str "a"), ("v", Json.str "x,\"y\"")]].map
          (normalizeRow (rowKeys [(kId, Json.str "a"), ("v", Json.str "x,\"y\"")])) :=
  (save_load_round_trip fsEmpty outName
    [(kId, Json.str "a"), ("v", Json.str "x,\"y\"")] []
    (by decide) (by decide)
    (by
      intro row hrow k
      simp only [List.mem_singleton] at hrow
      rw [hrow])
    (by decide)).1

theorem pids_mem : ∀ (rows : List (List (String × Json))) (acc : List String) (s : String),
    s ∈ rows.foldl (fun acc row =>
        match row.lookup kId with
        | some (.str t) => if t ≠ "" ∧ t ∉ acc then acc ++ [t] else acc
        | _ => acc) acc
    ↔ (s ∈ acc ∨ (s ≠ "" ∧ ∃ row ∈ rows, row.lookup kId = some (.str s)))
  | [], acc, s => by simp
  | row :: rest, acc, s => by
    rw [List.foldl_cons, pids_mem rest _ s]
    cases hl : row.lookup kId with
    | none =>
      dsimp only
      constructor
      · rintro (h | h)
        · exact Or.inl h
        · exact Or.inr ⟨h.1, by obtain ⟨r, hr, he⟩ := h.2; exact ⟨r, by simp [hr], he⟩⟩
      · rintro (h | ⟨hs, r, hr, he⟩)
        · exact Or.inl h
        · simp only [List.mem_cons] at hr
          rcases hr with rfl | hr
          · rw [hl] at he
            simp at he
          · exact Or.inr ⟨hs, r, hr, he⟩
    | some v =>
      cases v with
      | str t =>
        dsimp only
        by_cases hc : t ≠ "" ∧ t ∉ acc
        · rw [if_pos hc]
          constructor
          · rintro (h | h)
            · simp only [List.mem_append, List.mem_singleton] at h
              rcases h with h | rfl
              · exact Or.inl h
              · exact Or.inr ⟨hc.1, row, by simp, hl⟩
            · exact Or.inr ⟨h.1, by obtain ⟨r, hr, he⟩ := h.2; exact ⟨r, by simp [hr], he⟩⟩
          · rintro (h | ⟨hs, r, hr, he⟩)
            · exact Or.inl (by simp [h])
            · simp only [List.mem_cons] at hr
              rcases hr with rfl | hr
              · rw [hl] at he
                simp only [Option.some.injEq, Json.str.injEq] at he
                subst he
                exact Or.inl (by simp)
              · exact Or.inr ⟨hs, r, hr, he⟩
        · rw [if_neg hc]
          constructor
          · rintro (h | h)
            · exact Or.inl h
            · exact Or.inr ⟨h.1, by obtain ⟨r, hr, he⟩ := h.2; exact ⟨r, by simp [hr], he⟩⟩
          · rintro (h | ⟨hs, r, hr, he⟩)
            · exact Or.inl h
            · simp only [List.mem_cons] at hr
              rcases hr with rfl | hr
              · rw [hl] at he
                simp only [Option.some.injEq, Json.str.injEq] at he
                subst he
                rw [not_and_or] at hc
                rcases hc with hc | hc
                · exact absurd (by simpa using hc) hs
                · exact Or.inl (not_not.mp hc)
              · exact Or.inr ⟨hs, r, hr, he⟩
      | null =>
        dsimp only
        constructor
        · rintro (h | h)
          · exact Or.inl h
          · exact Or.inr ⟨h.1, by obtain ⟨r, hr, he⟩ := h.2; exact ⟨r, by simp [hr], he⟩⟩
        · rintro (h | ⟨hs, r, hr, he⟩)
          · exact Or.inl h
          · simp only [List.mem_cons] at hr
            rcases hr with rfl | hr
            · rw [hl] at he
              simp at he
            · exact Or.inr ⟨hs, r, hr, he⟩
      | bool b =>
        dsimp only
        constructor
        · rintro (h | h)
          · exact Or.inl h
          · exact Or.inr ⟨h.1, by obtain ⟨r, hr, he⟩ := h.2; exact ⟨r, by simp [hr], he⟩⟩
        · rintro (h | ⟨hs, r, hr, he⟩)
          · exact Or.inl h
          · simp only [List.mem_cons] at hr
            rcases hr with rfl | hr
            · rw [hl] at he
              simp at he
            · exact Or.inr ⟨hs, r, hr, he⟩
      | num q =>
        dsimp only
        constructor
        · rintro (h | h)
          · exact Or.inl h
          · exact Or.inr ⟨h.1, by obtain ⟨r, hr, he⟩ := h.2; exact ⟨r, by simp [hr], he⟩⟩
        · rintro (h | ⟨hs, r, hr, he⟩)
          · exact Or.inl h
          · simp only [List.mem_cons] at hr
            rcases hr with rfl | hr
            · rw [hl] at he
              simp at he
            · exact Or.inr ⟨hs, r, hr, he⟩
      | obj kvs =>
        dsimp only
        constructor
        · rintro (h | h)
          · exact Or.inl h
          · exact Or.inr ⟨h.1, by obtain ⟨r, hr, he⟩ := h.2; exact ⟨r, by simp [hr], he⟩⟩
        · rintro (h | ⟨hs, r, hr, he⟩)
          · exact Or.inl h
          · simp only [List.mem_cons] at hr
            rcases hr with rfl | hr
            · rw [hl] at he
              simp at he
            · exact Or.inr ⟨hs, r, hr, he⟩

/-- Claim C7: `load_existing_progress` returns empty state when the
checkpoint is absent and when it exists but is unreadable; when it is
readable it returns the `DictReader` rows together with `processed_ids`
equal (as a set) to the non-empty `id` values of those rows; and in every
case it neither deletes nor modifies anything on the file system. -/
theorem load_existing_progress_spec (fs : FS) (output_file : String) :
    (load_existing_progress fs output_file).1 = fs
    ∧ (fs.files.lookup (output_file ++ ".tmp") = none →
        load_existing_progress fs output_file = (fs, [], []))
    ∧ (fs.files.lookup (output_file ++ ".tmp") = some none →
        load_existing_progress fs output_file = (fs, [], []))
    ∧ (∀ content, fs.files.lookup (output_file ++ ".tmp") = some (some content) →
        (load_existing_progress fs output_file).2.1 = dictRows (csvParse content)
        ∧ (∀ s, s ∈ (load_existing_progress fs output_file).2.2
            ↔ (s ≠ "" ∧ ∃ row ∈ (load_existing_progress fs output_file).2.1,
                row.lookup kId = some (.str s)))) := by
  refine ⟨?_, ?_, ?_, ?_⟩
  · unfold load_existing_progress
    cases fs.files.lookup (output_file ++ ".tmp") with
    | none => rfl
    | some o => cases o <;> rfl
  · intro h
    unfold load_existing_progress
    rw [h]
  · intro h
    unfold load_existing_progress
    rw [h]
  · intro content h
    have hload : load_existing_progress fs output_file
        = (fs, dictRows (csvParse content),
            (dictRows (csvParse content)).foldl (fun acc row =>
              match row.lookup kId with
              | some (.str t) => if t ≠ "" ∧ t ∉ acc then acc ++ [t] else acc
              | _ => acc) []) := by
      unfold load_existing_progress
      rw [h]
    rw [hload]
    refine ⟨rfl, ?_⟩
    intro s
    rw [pids_mem]
    simp

/-- Claim C7, witness: a concrete readable checkpoint with one row of id `a`
yields `a` among the processed ids. -/
theorem load_existing_progress_spec_w :
    "a" ∈ (load_existing_progress
        ⟨[("classified.csv.tmp", some ("id\r\na\r\n".toList))], []⟩ outName).2.2 :=
  ((load_existing_progress_spec
      ⟨[("classified.csv.tmp", some ("id\r\na\r\n".toList))], []⟩ outName).2.2.2
    ("id\r\na\r\n".toList) rfl).2 "a" |>.mpr ⟨by decide, by decide⟩

/-! ## Driver lemmas -/
theorem tmp_ne (output_file : String) : output_file ≠ output_file ++ ".tmp" := by
  intro h
  have h2 := congrArg String.length h
  rw [String.length_append] at h2
  have h4 : (".tmp" : String).length = 4 := rfl
  rw [h4] at h2
  omega

theorem save_progress_badWrite (fs : FS) (out : String)
    (results : List (List (String × Json))) :
    (save_progress fs out results).badWrite = fs.badWrite := by
  unfold save_progress
  cases results with
  | nil => rfl
  | cons r0 rs =>
    dsimp only
    by_cases h : (out ++ ".tmp") ∈ fs.badWrite
    · rw [if_pos h]
    · rw [if_neg h]

theorem save_progress_other (fs : FS) (out : String)
    (results : List (List (String × Json))) (p : String) (hp : p ≠ out ++ ".tmp") :
    (save_progress fs out results).files.lookup p = fs.files.lookup p := by
  unfold save_progress
  cases results with
  | nil => rfl
  | cons r0 rs =>
    dsimp only
    by_cases h : (out ++ ".tmp") ∈ fs.badWrite
    · rw [if_pos h]
    · rw [if_neg h]
      exact storeSet_lookup_other _ _ _ _ hp

theorem save_progress_bad (fs : FS) (out : String)
    (results : List (List (String × Json))) (h : (out ++ ".tmp") ∈ fs.badWrite) :
    save_progress fs out results = fs := by
  unfold save_progress
  cases results with
  | nil => rfl
  | cons r0 rs =>
    dsimp only
    rw [if_pos h]

theorem runLoop_fs_other (classifier : String → String → String → String → Json)
    (sf : ℕ) (out : String) :
    ∀ (items : List (List (String × Json))) (intr : Option ℕ) (fs : FS)
      (evs : List Event) (results : List (List (String × Json)))
      (pids : List String) (n : ℕ) (p : String), p ≠ out ++ ".tmp" →
      (runLoop classifier sf out items intr fs evs results pids n).fs.files.lookup p
        = fs.files.lookup p
      ∧ (runLoop classifier sf out items intr fs evs results pids n).fs.badWrite
        = fs.badWrite
  | [], intr, fs, evs, results, pids, n => by intro p _; exact ⟨rfl, rfl⟩
  | item :: rest, intr, fs, evs, results, pids, n => by
    intro p hp
    simp only [runLoop]
    by_cases h0 : intr = some 0
    · rw [if_pos h0]
      exact ⟨rfl, rfl⟩
    · rw [if_neg h0]
      by_cases h1 : getStr item kId ∈ pids
      · rw [if_pos h1]
        exact runLoop_fs_other classifier sf out rest _ _ _ _ _ _ p hp
      · rw [if_neg h1]
        by_cases h2 : getStr item kTitle = "" ∧ getStr item kContent = ""
        · rw [if_pos h2]
          exact runLoop_fs_other classifier sf out rest _ _ _ _ _ _ p hp
        · rw [if_neg h2]
          by_cases h3 : (n + 1) % sf = 0
          · rw [if_pos h3]
            set R := results ++ [pyDictUpdate item
              (objFields (classifier (getStr item kTitle) (getStr item kContent)
                (getStr item kTags) (getStr item kCategories)))] with hR
            have ih := runLoop_fs_other classifier sf out rest (intr.map (· - 1))
              (save_progress fs out R) (evs ++ [Event.evSave R]) R pids (n + 1) p hp
            exact ⟨ih.1.trans (save_progress_other fs out R p hp),
              ih.2.trans (save_progress_badWrite fs out R)⟩
          · rw [if_neg h3]
            exact runLoop_fs_other classifier sf out rest _ _ _ _ _ _ p hp

theorem runLoop_events_shape (classifier : String → String → String → String → Json)
    (sf : ℕ) (out : String) :
    ∀ (items : List (List (String × Json))) (intr : Option ℕ) (fs : FS)
      (evs : List Event) (results : List (List (String × Json)))
      (pids : List String) (n : ℕ) (ev : Event),
      ev ∈ (runLoop classifier sf out items intr fs evs results pids n).events →
      ev ∈ evs ∨ ∃ rows, ev = .evSave rows
  | [], intr, fs, evs, results, pids, n => by
    intro ev h
    exact Or.inl h
  | item :: rest, intr, fs, evs, results, pids, n => by
    intro ev h
    simp only [runLoop] at h
    by_cases h0 : intr = some 0
    · rw [if_pos h0] at h
      exact Or.inl h
    · rw [if_neg h0] at h
      by_cases h1 : getStr item kId ∈ pids
      · rw [if_pos h1] at h
        exact runLoop_events_shape classifier sf out rest _ _ _ _ _ _ ev h
      · rw [if_neg h1] at h
        by_cases h2 : getStr item kTitle = "" ∧ getStr item kContent = ""
        · rw [if_pos h2] at h
          exact runLoop_events_shape classifier sf out rest _ _ _ _ _ _ ev h
        · rw [if_neg h2] at h
          by_cases h3 : (n + 1) % sf = 0
          · rw [if_pos h3] at h
            rcases runLoop_events_shape classifier sf out rest _ _ _ _ _ _ ev h with hin | hx
            · simp only [List.mem_append, List.mem_singleton] at hin
              rcases hin with hin | rfl
              · exact Or.inl hin
              · exact Or.inr ⟨_, rfl⟩
            · exact Or.inr hx
          · rw [if_neg h3] at h
            exact runLoop_events_shape classifier sf out rest _ _ _ _ _ _ ev h

theorem runLoop_interrupts (classifier : String → String → String → String → Json)
    (sf : ℕ) (out : String) :
    ∀ (items : List (List (String × Json))) (k : ℕ) (fs : FS)
      (evs : List Event) (results : List (List (String × Json)))
      (pids : List String) (n : ℕ), k < items.length →
      (runLoop classifier sf out items (some k) fs evs results pids n).interrupted = true
  | [], k, fs, evs, results, pids, n => by
    intro hk
    simp at hk
  | item :: rest, k, fs, evs, results, pids, n => by
    intro hk
    simp only [runLoop]
    by_cases h0 : (some k : Option ℕ) = some 0
    · rw [if_pos h0]
    · rw [if_neg h0]
      have hk' : k - 1 < rest.length := by
        simp only [Option.some.injEq] at h0
        simp only [List.length_cons] at hk
        omega
      have hmap : (some k : Option ℕ).map (· - 1) = some (k - 1) := rfl
      rw [hmap]
      by_cases h1 : getStr item kId ∈ pids
      · rw [if_pos h1]
        exact runLoop_interrupts classifier sf out rest (k - 1) _ _ _ _ _ hk'
      · rw [if_neg h1]
        by_cases h2 : getStr item kTitle = "" ∧ getStr item kContent = ""
        · rw [if_pos h2]
          exact runLoop_interrupts classifier sf out rest (k - 1) _ _ _ _ _ hk'
        · rw [if_neg h2]
          by_cases h3 : (n + 1) % sf = 0
          · rw [if_pos h3]
            exact runLoop_interrupts classifier sf out rest (k - 1) _ _ _ _ _ hk'
          · rw [if_neg h3]
            exact runLoop_interrupts classifier sf out rest (k - 1) _ _ _ _ _ hk'

theorem getStr_pyDictUpdate (item upd : List (String × Json))
    (h : kId ∉ upd.map Prod.fst) :
    getStr (pyDictUpdate item upd) kId = getStr item kId := by
  unfold getStr
  rw [pyDictUpdate_lookup_not_mem upd item kId h]

theorem runLoop_new_rows (classifier : String → String → String → String → Json)
    (sf : ℕ) (out : String)
    (hcls : ∀ t c tg cg, kId ∉ (objFields (classifier t c tg cg)).map Prod.fst) :
    ∀ (items : List (List (String × Json))) (intr : Option ℕ) (fs : FS)
      (evs : List Event) (results : List (List (String × Json)))
      (pids : List String) (n : ℕ),
      ∃ l, (runLoop classifier sf out items intr fs evs results pids n).results
            = results ++ l
        ∧ (∀ row ∈ l, getStr row kId ∉ pids)
        ∧ (l.map (fun r => getStr r kId)).Sublist
            (items.map (fun r => getStr r kId))
  | [], intr, fs, evs, results, pids, n =>
    ⟨[], by simp [runLoop], by simp, by simp⟩
  | item :: rest, intr, fs, evs, results, pids, n => by
    simp only [runLoop]
    by_cases h0 : intr = some 0
    · rw [if_pos h0]
      exact ⟨[], by simp, by simp, by simp⟩
    · rw [if_neg h0]
      by_cases h1 : getStr item kId ∈ pids
      · rw [if_pos h1]
        obtain ⟨l, ha, hb, hc⟩ := runLoop_new_rows classifier sf out hcls rest
          (intr.map (· - 1)) fs evs results pids n
        exact ⟨l, ha, hb, by simpa using hc.cons _⟩
      · rw [if_neg h1]
        by_cases h2 : getStr item kTitle = "" ∧ getStr item kContent = ""
        · rw [if_pos h2]
          obtain ⟨l, ha, hb, hc⟩ := runLoop_new_rows classifier sf out hcls rest
            (intr.map (· - 1)) fs evs results pids n
          exact ⟨l, ha, hb, by simpa using hc.cons _⟩
        · rw [if_neg h2]
          set r := pyDictUpdate item
            (objFields (classifier (getStr item kTitle) (getStr item kContent)
              (getStr item kTags) (getStr item kCategories))) with hr
          have hrid : getStr r kId = getStr item kId :=
            getStr_pyDictUpdate item _ (hcls _ _ _ _)
          by_cases h3 : (n + 1) % sf = 0
          · rw [if_pos h3]
            obtain ⟨l, ha, hb, hc⟩ := runLoop_new_rows classifier sf out hcls rest
              (intr.map (· - 1)) (save_progress fs out (results ++ [r]))
              (evs ++ [Event.evSave (results ++ [r])]) (results ++ [r]) pids (n + 1)
            refine ⟨r :: l, by simpa using ha, ?_, ?_⟩
            · intro row hrow
              rcases List.mem_cons.mp hrow with rfl | hrow
              · rw [hrid]; exact h1
              · exact hb row hrow
            · simpa [hrid] using hc.cons₂ (getStr item kId)
          · rw [if_neg h3]
            obtain ⟨l, ha, hb, hc⟩ := runLoop_new_rows classifier sf out hcls rest
              (intr.map (· - 1)) fs evs (results ++ [r]) pids (n + 1)
            refine ⟨r :: l, by simpa using ha, ?_, ?_⟩
            · intro row hrow
              rcases List.mem_cons.mp hrow with rfl | hrow
              · rw [hrid]; exact h1
              · exact hb row hrow
            · simpa [hrid] using hc.cons₂ (getStr item kId)

theorem runLoop_fs_indep (classifier : String → String → String → String → Json)
    (sf : ℕ) (out : String) :
    ∀ (items : List (List (String × Json))) (intr : Option ℕ) (fs fs' : FS)
      (evs : List Event) (results : List (List (String × Json)))
      (pids : List String) (n : ℕ),
      (runLoop classifier sf out items intr fs evs results pids n).results
        = (runLoop classifier sf out items intr fs' evs results pids n).results
      ∧ (runLoop classifier sf out items intr fs evs results pids n).events
        = (runLoop classifier sf out items intr fs' evs results pids n).events
      ∧ (runLoop classifier sf out items intr fs evs results pids n).interrupted
        = (runLoop classifier sf out items intr fs' evs results pids n).interrupted
  | [], intr, fs, fs', evs, results, pids, n => ⟨rfl, rfl, rfl⟩
  | item :: rest, intr, fs, fs', evs, results, pids, n => by
    simp only [runLoop]
    by_cases h0 : intr = some 0
    · simp only [if_pos h0]
      exact ⟨trivial, trivial, trivial⟩
    · simp only [if_neg h0]
      by_cases h1 : getStr item kId ∈ pids
      · simp only [if_pos h1]
        exact runLoop_fs_indep classifier sf out rest _ _ _ _ _ _ _
      · simp only [if_neg h1]
        by_cases h2 : getStr item kTitle = "" ∧ getStr item kContent = ""
        · simp only [if_pos h2]
          exact runLoop_fs_indep classifier sf out rest _ _ _ _ _ _ _
        · simp only [if_neg h2]
          set r := pyDictUpdate item
            (objFields (classifier (getStr item kTitle) (getStr item kContent)
              (getStr item kTags) (getStr item kCategories))) with hr
          by_cases h3 : (n + 1) % sf = 0
          · simp only [if_pos h3]
            exact runLoop_fs_indep classifier sf out rest (intr.map (· - 1))
              (save_progress fs out (results ++ [r])) (save_progress fs' out (results ++ [r]))
              (evs ++ [Event.evSave (results ++ [r])]) (results ++ [r]) pids (n + 1)
          · simp only [if_neg h3]
            exact runLoop_fs_indep classifier sf out rest _ _ _ _ _ _ _

theorem finalizeRun_rows (out : String) (o : LoopOut) : (finalizeRun out o).rows = o.results := by
  unfold finalizeRun
  by_cases h0 : o.interrupted
  · rw [if_pos h0]
    by_cases h1 : o.results.isEmpty
    · rw [if_pos h1]
    · rw [if_neg h1]
  · rw [if_neg h0]
    cases hres : o.results with
    | nil => rfl
    | cons r0 rs =>
      dsimp only
      by_cases h1 : out ∈ o.fs.badWrite
      · rw [if_pos h1]
      · rw [if_neg h1]
        by_cases h2 : (encodeRowsPartial (rowKeys r0) (r0 :: rs)).2
        · rw [if_pos h2]
          by_cases h3 : fsExists
              ⟨storeSet o.fs.files out
                (some (encodeRecords (((rowKeys r0).map String.toList)
                  :: (encodeRowsPartial (rowKeys r0) (r0 :: rs)).1))), o.fs.badWrite⟩
              (out ++ ".tmp")
          · rw [if_pos h3]
          · rw [if_neg h3]
        · rw [if_neg h2]

/-! ## The driver claims -/
/-- Claim C3, counterexample: two input items share the identifier `a`; the
driver appends both (`processed_ids` is never extended during the loop) and
the final output file contains two rows with id `a`, so the output is not
duplicate-free. -/
theorem run_duplicate_ids_cx :
    ((run demoClassifier 20 outName [mkItem "a" "t1", mkItem "a" "t2"] none
        fsEmpty).fs.files.lookup outName).map
      (fun o => o.map (fun c => (dictRows (csvParse c)).map (fun r => getStr r kId)))
      = some (some ["a", "a"]) := by decide

/-- Claim C3 (amended): `processed_ids` is populated only from the loaded
checkpoint and never extended during iteration, so rows are deduplicated
only against the checkpoint: every row appended by the loop has an id
outside the loaded `processed_ids`, and the appended ids follow the input
order (a sublist of the input ids).  The at-most-one-row-per-identifier
invariant therefore holds only when the input ids are themselves distinct:
on a fresh run over distinct ids the output ids are pairwise distinct. -/
theorem run_dedup (classifier : String → String → String → String → Json)
    (sf : ℕ) (out : String) (items : List (List (String × Json))) (fs : FS)
    (hcls : ∀ t c tg cg, kId ∉ (objFields (classifier t c tg cg)).map Prod.fst) :
    (∃ l, (run classifier sf out items none fs).rows
        = (load_existing_progress fs out).2.1 ++ l
      ∧ (∀ row ∈ l, getStr row kId ∉ (load_existing_progress fs out).2.2)
      ∧ (l.map (fun r => getStr r kId)).Sublist (items.map (fun r => getStr r kId)))
    ∧ (fs.files.lookup (out ++ ".tmp") = none →
        (items.map (fun r => getStr r kId)).Nodup →
        ((run classifier sf out items none fs).rows.map (fun r => getStr r kId)).Nodup) := by
  constructor
  · obtain ⟨l, ha, hb, hc⟩ := runLoop_new_rows classifier sf out hcls items none fs []
      (load_existing_progress fs out).2.1 (load_existing_progress fs out).2.2
      (load_existing_progress fs out).2.1.length
    exact ⟨l, by rw [run, finalizeRun_rows]; exact ha, hb, hc⟩
  · intro hfresh hnodup
    have hload : load_existing_progress fs out = (fs, [], []) := by
      unfold load_existing_progress
      rw [hfresh]
    obtain ⟨l, ha, hb, hc⟩ := runLoop_new_rows classifier sf out hcls items none fs []
      (load_existing_progress fs out).2.1 (load_existing_progress fs out).2.2
      (load_existing_progress fs out).2.1.length
    rw [run, finalizeRun_rows, ha, hload]
    simpa using hnodup.sublist hc

/-- Claim C3, witness: a fresh run over two distinct ids has duplicate-free
output ids. -/
theorem run_dedup_w :
    ((run demoClassifier 20 outName [mkItem "a" "t1", mkItem "b" "t2"] none
        fsEmpty).rows.map (fun r => getStr r kId)).Nodup :=
  (run_dedup demoClassifier 20 outName [mkItem "a" "t1", mkItem "b" "t2"] fsEmpty
    (fun t c tg cg => by
      show kId ∉ [kNeighborhood, kConfidence, kRationale]
      decide)).2 (by decide) (by decide)

/-- Claim C4, counterexample: the spec's interrupted-run scenario — the
interrupt arrives after item `b`, before `c` — terminates via `sys.exit(0)`:
the exit status is zero, not non-zero. -/
theorem run_interrupt_cx :
    (run demoClassifier 2 outName demoItems (some 2) fsEmpty).exitCode = 0 := by
  decide

/-- Claim C4 (amended): an interrupt during iteration leads to a checkpoint
save of the rows accumulated so far (when any exist, as the last event), the
final output path is never written, and the process exits with status 0 via
`sys.exit(0)` — not with a non-zero status. -/
theorem run_interrupt (classifier : String → String → String → String → Json)
    (sf : ℕ) (out : String) (items : List (List (String × Json))) (fs : FS)
    (k : ℕ) (hk : k < items.length) :
    (run classifier sf out items (some k) fs).exitCode = 0
    ∧ (run classifier sf out items (some k) fs).fs.files.lookup out
        = fs.files.lookup out
    ∧ (∀ rows, Event.evWriteFinal rows ∉ (run classifier sf out items (some k) fs).events)
    ∧ ((run classifier sf out items (some k) fs).rows ≠ [] →
        (run classifier sf out items (some k) fs).events.getLast?
          = some (.evSave ((run classifier sf out items (some k) fs).rows))) := by
  have hint := runLoop_interrupts classifier sf out items k fs []
    (load_existing_progress fs out).2.1 (load_existing_progress fs out).2.2
    (load_existing_progress fs out).2.1.length hk
  have hother := runLoop_fs_other classifier sf out items (some k) fs []
    (load_existing_progress fs out).2.1 (load_existing_progress fs out).2.2
    (load_existing_progress fs out).2.1.length out (tmp_ne out)
  have hshape := runLoop_events_shape classifier sf out items (some k) fs []
    (load_existing_progress fs out).2.1 (load_existing_progress fs out).2.2
    (load_existing_progress fs out).2.1.length
  rw [run, finalizeRun, if_pos hint] at *
  by_cases hemp : (runLoop classifier sf out items (some k) fs []
      (load_existing_progress fs out).2.1 (load_existing_progress fs out).2.2
      (load_existing_progress fs out).2.1.length).results.isEmpty
  · rw [if_pos hemp]
    refine ⟨rfl, hother.1, ?_, ?_⟩
    · intro rows hmem
      rcases hshape _ hmem with hin | ⟨rows2, heq⟩
      · simp at hin
      · exact Event.noConfusion heq
    · intro hne
      exact absurd (List.isEmpty_iff.mp hemp) hne
  · rw [if_neg hemp]
    refine ⟨rfl, ?_, ?_, ?_⟩
    · exact (save_progress_other _ out _ out (tmp_ne out)).trans hother.1
    · intro rows hmem
      rcases List.mem_append.mp hmem with hin | hin
      · rcases hshape _ hin with hin2 | ⟨rows2, heq⟩
        · simp at hin2
        · exact Event.noConfusion heq
      · rcases List.mem_singleton.mp hin with heq
        exact Event.noConfusion heq
    · intro _
      exact List.getLast?_concat _

/-- Claim C4, witness: in the concrete interrupted scenario the output path
stays absent and the last event is the interrupt-handler checkpoint save. -/
theorem run_interrupt_w :
    (run demoClassifier 2 outName demoItems (some 2) fsEmpty).fs.files.lookup outName
        = fsEmpty.files.lookup outName
    ∧ (run demoClassifier 2 outName demoItems (some 2) fsEmpty).events.getLast?
        = some (.evSave ((run demoClassifier 2 outName demoItems (some 2) fsEmpty).rows)) :=
  ⟨(run_interrupt demoClassifier 2 outName demoItems fsEmpty 2 (by decide)).2.1,
   (run_interrupt demoClassifier 2 outName demoItems fsEmpty 2 (by decide)).2.2.2
     (by decide)⟩

/-- Claim C8: the fresh-run scenario — three classifiable items `a,b,c`, no
prior checkpoint, `save_frequency = 2` — checkpoints exactly once (after
item `b`), writes the final output with exactly the three rows `a,b,c` in
source order, deletes the checkpoint at finalization and exits 0; and in
every run whatsoever, the checkpoint removal event occurs only immediately
after a final-output write, so finalization is the only operation that
deletes the checkpoint. -/
theorem run_fresh_scenario :
    ((run demoClassifier 2 outName demoItems none fsEmpty).events
        = [Event.evSave [demoRow "a" "t1", demoRow "b" "t2"],
           Event.evWriteFinal [demoRow "a" "t1", demoRow "b" "t2", demoRow "c" "t3"],
           Event.evRemoveTmp]
      ∧ (run demoClassifier 2 outName demoItems none fsEmpty).fs.files.lookup
          (outName ++ ".tmp") = none
      ∧ ((run demoClassifier 2 outName demoItems none fsEmpty).fs.files.lookup
          outName).map (fun o => o.map (fun c =>
            (dictRows (csvParse c)).map (fun r => getStr r kId)))
          = some (some ["a", "b", "c"])
      ∧ (run demoClassifier 2 outName demoItems none fsEmpty).exitCode = 0)
    ∧ ∀ (classifier : String → String → String → String → Json) (sf : ℕ)
        (out : String) (items : List (List (String × Json))) (intr : Option ℕ)
        (fs : FS), Event.evRemoveTmp ∈ (run classifier sf out items intr fs).events →
        ∃ pfx rows, (run classifier sf out items intr fs).events
          = pfx ++ [Event.evWriteFinal rows, Event.evRemoveTmp] := by
  constructor
  · exact ⟨by decide, by decide, by decide, by decide⟩
  · intro classifier sf out items intr fs h
    have hshape := runLoop_events_shape classifier sf out items intr fs []
      (load_existing_progress fs out).2.1 (load_existing_progress fs out).2.2
      (load_existing_progress fs out).2.1.length
    have hnotmp : Event.evRemoveTmp ∉ (runLoop classifier sf out items intr fs []
        (load_existing_progress fs out).2.1 (load_existing_progress fs out).2.2
        (load_existing_progress fs out).2.1.length).events := by
      intro hmem
      rcases hshape _ hmem with hin | ⟨rows2, heq⟩
      · simp at hin
      · exact Event.noConfusion heq
    rw [run, finalizeRun] at h ⊢
    by_cases h0 : (runLoop classifier sf out items intr fs []
        (load_existing_progress fs out).2.1 (load_existing_progress fs out).2.2
        (load_existing_progress fs out).2.1.length).interrupted
    · rw [if_pos h0] at h ⊢
      by_cases h1 : (runLoop classifier sf out items intr fs []
          (load_existing_progress fs out).2.1 (load_existing_progress fs out).2.2
          (load_existing_progress fs out).2.1.length).results.isEmpty
      · rw [if_pos h1] at h
        exact absurd h hnotmp
      · rw [if_neg h1] at h
        rcases List.mem_append.mp h with hin | hin
        · exact absurd hin hnotmp
        · exact absurd (List.mem_singleton.mp hin) (fun he => Event.noConfusion he)
    · rw [if_neg h0] at h ⊢
      rcases hres : (runLoop classifier sf out items intr fs []
          (load_existing_progress fs out).2.1 (load_existing_progress fs out).2.2
          (load_existing_progress fs out).2.1.length).results with _ | ⟨r0, rs⟩
      · rw [hres] at h
        dsimp only at h
        exact absurd h hnotmp
      · rw [hres] at h
        dsimp only at h ⊢
        by_cases h1 : out ∈ (runLoop classifier sf out items intr fs []
            (load_existing_progress fs out).2.1 (load_existing_progress fs out).2.2
            (load_existing_progress fs out).2.1.length).fs.badWrite
        · rw [if_pos h1] at h
          rcases List.mem_append.mp h with hin | hin
          · exact absurd hin hnotmp
          · exact absurd (List.mem_singleton.mp hin) (fun he => Event.noConfusion he)
        · rw [if_neg h1] at h ⊢
          by_cases h2 : (encodeRowsPartial (rowKeys r0) (r0 :: rs)).2
          · rw [if_pos h2] at h ⊢
            by_cases h3 : fsExists
                ⟨storeSet (runLoop classifier sf out items intr fs []
                    (load_existing_progress fs out).2.1 (load_existing_progress fs out).2.2
                    (load_existing_progress fs out).2.1.length).fs.files out
                  (some (encodeRecords (((rowKeys r0).map String.toList)
                    :: (encodeRowsPartial (rowKeys r0) (r0 :: rs)).1))),
                  (runLoop classifier sf out items intr fs []
                    (load_existing_progress fs out).2.1 (load_existing_progress fs out).2.2
                    (load_existing_progress fs out).2.1.length).fs.badWrite⟩
                (out ++ ".tmp")
            · rw [if_pos h3]
              exact ⟨_, r0 :: rs, rfl⟩
            · rw [if_neg h3] at h
              rcases List.mem_append.mp h with hin | hin
              · exact absurd hin hnotmp
              · exact absurd (List.mem_singleton.mp hin) (fun he => Event.noConfusion he)
          · rw [if_neg h2] at h
            rcases List.mem_append.mp h with hin | hin
            · exact absurd hin hnotmp
            · exact absurd (List.mem_singleton.mp hin) (fun he => Event.noConfusion he)

/-- Claim C8, witness: in the fresh-run scenario the checkpoint removal is
indeed immediately preceded by the final-output write. -/
theorem run_fresh_scenario_w :
    ∃ pfx rows, (run demoClassifier 2 outName demoItems none fsEmpty).events
      = pfx ++ [Event.evWriteFinal rows, Event.evRemoveTmp] :=
  run_fresh_scenario.2 demoClassifier 2 outName demoItems none fsEmpty (by decide)

/-- Claim C10: `save_progress` absorbs write failures — on a path whose
checkpoint location raises on open, it returns with the file system (and
everything else) unchanged; on any path it touches nothing but the
checkpoint location; and the loop's accumulated rows, events and interrupt
outcome do not depend on the file-system state at all, so a failed
checkpoint write leaves the iteration unaffected. -/
theorem save_progress_absorbs :
    (∀ (fs : FS) (out : String) (results : List (List (String × Json))),
        (out ++ ".tmp") ∈ fs.badWrite → save_progress fs out results = fs)
    ∧ (∀ (fs : FS) (out : String) (results : List (List (String × Json)))
        (p : String), p ≠ out ++ ".tmp" →
        (save_progress fs out results).files.lookup p = fs.files.lookup p
        ∧ (save_progress fs out results).badWrite = fs.badWrite)
    ∧ (∀ (classifier : String → String → String → String → Json) (sf : ℕ)
        (out : String) (items : List (List (String × Json))) (intr : Option ℕ)
        (fs fs' : FS) (evs : List Event) (results : List (List (String × Json)))
        (pids : List String) (n : ℕ),
        (runLoop classifier sf out items intr fs evs results pids n).results
          = (runLoop classifier sf out items intr fs' evs results pids n).results
        ∧ (runLoop classifier sf out items intr fs evs results pids n).events
          = (runLoop classifier sf out items intr fs' evs results pids n).events
        ∧ (runLoop classifier sf out items intr fs evs results pids n).interrupted
          = (runLoop classifier sf out items intr fs' evs results pids n).interrupted) :=
  ⟨save_progress_bad,
   fun fs out results p hp =>
     ⟨save_progress_other fs out results p hp, save_progress_badWrite fs out results⟩,
   fun classifier sf out items intr fs fs' evs results pids n =>
     runLoop_fs_indep classifier sf out items intr fs fs' evs results pids n⟩

/-- Claim C10, witness: a checkpoint write to a bad path leaves a concrete
file system untouched. -/
theorem save_progress_absorbs_w :
    save_progress ⟨[], ["classified.csv.tmp"]⟩ outName [[(kId, Json.str "a")]]
      = ⟨[], ["classified.csv.tmp"]⟩ :=
  save_progress_absorbs.1 ⟨[], ["classified.csv.tmp"]⟩ outName
    [[(kId, Json.str "a")]] (by decide)

end SFNC

